import Mathlib

/-!
# openapi-gen: naming rules and code template

A shallow embedding of `openapi-gen/main.go`: the four helper functions of the
template function map (`snakeCaseToCamelCase`, `snakeCaseToPascalCase`,
`stripNewlines`, `convertRefToClassName`), the decoded schema value, and the
execution of `codeTemplate` over it.

Go strings are modelled as lists of runes (`List Char`), i.e. as the valid UTF-8
strings, which is what `encoding/json` produces for every string of the schema.
Byte-level operations (`input[0]`, the index variable of `range`) go through the
UTF-8 encoding of the runes.
-/

namespace OpenapiGen

/-- A Go string holding valid UTF-8, as its sequence of runes. -/
abbrev GoString := List Char

/-- A string literal of the source, as a Go string. -/
abbrev lit (s : String) : GoString := s.toList

/-- Run-time failures of the Go code. -/
inductive GoPanic where
  | indexOutOfRange
  deriving DecidableEq

deriving instance DecidableEq for Except

/-! ## Go library: `unicode` -/

/-- Go's ASCII fast path of `unicode.ToUpper` and `unicode.ToTitle`:
`if 'a' <= r && r <= 'z' { r -= 'a' - 'A' }`. -/
def asciiUpper (c : Char) : Char :=
  if 97 ≤ c.toNat ∧ c.toNat ≤ 122 then Char.ofNat (c.toNat - 32) else c

/-- Go's ASCII fast path of `unicode.ToLower`:
`if 'A' <= r && r <= 'Z' { r += 'a' - 'A' }`. -/
def asciiLower (c : Char) : Char :=
  if 65 ≤ c.toNat ∧ c.toNat ≤ 90 then Char.ofNat (c.toNat + 32) else c

/-- The rune tables of Go's `unicode` package that `strings.ToUpper`,
`strings.ToLower` and `strings.Title` consult. The tables belong to the Go
standard library, not to this repository, and are a parameter of the embedding. -/
structure RuneTables where
  toUpper : Char → Char
  toLower : Char → Char
  toTitle : Char → Char
  isLetter : Char → Bool
  isDigit : Char → Bool
  isSpace : Char → Bool

/-- The word separators of Go's `strings.Title` (`isSeparator`): ASCII
alphanumerics and underscore are not separators, other ASCII runes are; outside
ASCII letters and digits are not separators and otherwise only spaces are. -/
def isSeparator (T : RuneTables) (r : Char) : Bool :=
  if r.toNat ≤ 0x7F then
    if 48 ≤ r.toNat ∧ r.toNat ≤ 57 then false
    else if 97 ≤ r.toNat ∧ r.toNat ≤ 122 then false
    else if 65 ≤ r.toNat ∧ r.toNat ≤ 90 then false
    else if r = '_' then false
    else true
  else if T.isLetter r || T.isDigit r then false
  else T.isSpace r

/-- Rune tables together with the facts about them that the development relies
on: the ASCII fast paths of `unicode.ToUpper`, `unicode.ToLower` and
`unicode.ToTitle` (`if r <= MaxASCII`), and three facts about title case. -/
structure Unicode extends RuneTables where
  /-- ASCII fast path of `unicode.ToUpper`. -/
  toUpper_ascii : ∀ c : Char, c.toNat ≤ 127 → toUpper c = asciiUpper c
  /-- ASCII fast path of `unicode.ToLower`. -/
  toLower_ascii : ∀ c : Char, c.toNat ≤ 127 → toLower c = asciiLower c
  /-- ASCII fast path of `unicode.ToTitle`. -/
  toTitle_ascii : ∀ c : Char, c.toNat ≤ 127 → toTitle c = asciiUpper c
  /-- A title-case rune is its own title case. -/
  toTitle_idem : ∀ c : Char, toTitle (toTitle c) = toTitle c
  /-- A rune changed by `unicode.ToTitle` becomes an ASCII capital or a
  non-ASCII rune. -/
  toTitle_changed : ∀ c : Char, toTitle c = c ∨
    (65 ≤ (toTitle c).toNat ∧ (toTitle c).toNat ≤ 90) ∨ 128 ≤ (toTitle c).toNat
  /-- Title-casing a rune keeps it a separator or a non-separator of `strings.Title`. -/
  toTitle_separator : ∀ c : Char,
    isSeparator toRuneTables (toTitle c) = isSeparator toRuneTables c

/-- The rune tables restricted to ASCII: every rune outside ASCII is left
unchanged and is no letter, digit or space. On ASCII input every `Unicode`
agrees with it. -/
def asciiTables : RuneTables where
  toUpper := asciiUpper
  toLower := asciiLower
  toTitle := asciiUpper
  isLetter := fun c => (65 ≤ c.toNat && c.toNat ≤ 90) || (97 ≤ c.toNat && c.toNat ≤ 122)
  isDigit := fun c => 48 ≤ c.toNat && c.toNat ≤ 57
  isSpace := fun c => c = ' ' || (9 ≤ c.toNat && c.toNat ≤ 13)

/-- The ASCII tables satisfy every fact required of `Unicode`. -/
def asciiUnicode : Unicode where
  toRuneTables := asciiTables
  toUpper_ascii := fun _ _ => rfl
  toLower_ascii := fun _ _ => rfl
  toTitle_ascii := fun _ _ => rfl
  toTitle_idem := by
    intro c
    show asciiUpper (asciiUpper c) = asciiUpper c
    by_cases hc : c.toNat ≤ 127
    · have h := (by decide : ∀ n : Fin 128,
        asciiUpper (asciiUpper (Char.ofNat n.val)) = asciiUpper (Char.ofNat n.val))
        ⟨c.toNat, by omega⟩
      simpa using h
    · have h1 : asciiUpper c = c := by
        unfold asciiUpper; rw [if_neg (by omega)]
      rw [h1, h1]
  toTitle_changed := by
    intro c
    show asciiUpper c = c ∨
      (65 ≤ (asciiUpper c).toNat ∧ (asciiUpper c).toNat ≤ 90) ∨ 128 ≤ (asciiUpper c).toNat
    by_cases hc : c.toNat ≤ 127
    · have h := (by decide : ∀ n : Fin 128,
        asciiUpper (Char.ofNat n.val) = Char.ofNat n.val ∨
        (65 ≤ (asciiUpper (Char.ofNat n.val)).toNat ∧ (asciiUpper (Char.ofNat n.val)).toNat ≤ 90) ∨
        128 ≤ (asciiUpper (Char.ofNat n.val)).toNat) ⟨c.toNat, by omega⟩
      simpa using h
    · left
      unfold asciiUpper; rw [if_neg (by omega)]
  toTitle_separator := by
    intro c
    show isSeparator asciiTables (asciiUpper c) = isSeparator asciiTables c
    by_cases hc : c.toNat ≤ 127
    · have h := (by decide : ∀ n : Fin 128,
        isSeparator asciiTables (asciiUpper (Char.ofNat n.val)) =
          isSeparator asciiTables (Char.ofNat n.val)) ⟨c.toNat, by omega⟩
      simpa using h
    · have h1 : asciiUpper c = c := by
        unfold asciiUpper; rw [if_neg (by omega)]
      rw [h1]

/-! ## Go library: `strings` and string indexing -/

/-- Number of bytes of the UTF-8 encoding of a rune. -/
def utf8Len (c : Char) : Nat :=
  if c.toNat < 0x80 then 1
  else if c.toNat < 0x800 then 2
  else if c.toNat < 0x10000 then 3
  else 4

/-- UTF-8 encoding of a rune, as bytes. -/
def utf8EncodeRune (c : Char) : List Nat :=
  let n := c.toNat
  if n < 0x80 then [n]
  else if n < 0x800 then [0xC0 + n / 0x40, 0x80 + n % 0x40]
  else if n < 0x10000 then [0xE0 + n / 0x1000, 0x80 + n / 0x40 % 0x40, 0x80 + n % 0x40]
  else [0xF0 + n / 0x40000, 0x80 + n / 0x1000 % 0x40, 0x80 + n / 0x40 % 0x40, 0x80 + n % 0x40]

/-- The bytes of a Go string. -/
def utf8Bytes : GoString → List Nat
  | [] => []
  | c :: cs => utf8EncodeRune c ++ utf8Bytes cs

/-- Go's `s[i]`: the byte at offset `i`, a run-time panic when `i` is out of range. -/
def byteAt (s : GoString) (i : Nat) : Except GoPanic Nat :=
  match (utf8Bytes s).get? i with
  | some b => .ok b
  | none => .error .indexOutOfRange

/-- Go's conversion `string(b)` of a byte: the string of the rune with that value. -/
def byteToString (b : Nat) : GoString := [Char.ofNat b]

/-- Go's `for k, v := range s`: every rune with the byte offset at which it starts. -/
def rangeString : Nat → GoString → List (Nat × Char)
  | _, [] => []
  | k, c :: cs => (k, c) :: rangeString (k + utf8Len c) cs

/-- Go's `strings.ToUpper`. -/
def stringsToUpper (U : Unicode) (s : GoString) : GoString := s.map U.toUpper

/-- Go's `strings.ToLower`. -/
def stringsToLower (U : Unicode) (s : GoString) : GoString := s.map U.toLower

/-- Go's `strings.TrimLeft(s, cutset)`: drops every leading rune contained in `cutset`. -/
def stringsTrimLeft (s cutset : GoString) : GoString :=
  s.dropWhile (fun r => decide (r ∈ cutset))

/-- The rune-by-rune mapping of `strings.Title`, with the closure variable `prev`. -/
def titleFrom (U : Unicode) : Char → GoString → GoString
  | _, [] => []
  | prev, r :: rs => (if isSeparator U.toRuneTables prev then U.toTitle r else r) :: titleFrom U r rs

/-- Go's `strings.Title`: `prev := ' '`, then every rune that follows a separator
is mapped through `unicode.ToTitle`. -/
def stringsTitle (U : Unicode) (s : GoString) : GoString := titleFrom U ' ' s

/-- Go's `strings.Replace(s, old, new, -1)` for a one-rune `old`. -/
def stringsReplaceAll (old : Char) (new : GoString) : GoString → GoString
  | [] => []
  | c :: cs => (if c = old then new else [c]) ++ stringsReplaceAll old new cs

/-! ## The template helper functions of `main.go` -/

/-- The function `convertRefToClassName` (template function `cleanRef`). -/
def convertRefToClassName (U : Unicode) (input : GoString) : GoString :=
  let cleanRef := stringsTrimLeft input (lit "#/definitions/")
  stringsTitle U cleanRef

/-- One iteration of the loop of `snakeCaseToCamelCase`, on the state
`(camelCase, isToUpper)`. -/
def camelStep (U : Unicode) (input : GoString) (st : GoString × Bool) (kv : Nat × Char) :
    Except GoPanic (GoString × Bool) :=
  if kv.1 = 0 then do
    let b ← byteAt input 0
    pure (stringsToLower U (byteToString b), st.2)
  else if st.2 then
    pure (st.1 ++ stringsToUpper U [kv.2], false)
  else if kv.2 = '_' then
    pure (st.1, true)
  else
    pure (st.1 ++ [kv.2], st.2)

/-- The function `snakeCaseToCamelCase` (template function `camelCase`). -/
def snakeCaseToCamelCase (U : Unicode) (input : GoString) : Except GoPanic GoString := do
  let st ← (rangeString 0 input).foldlM (camelStep U input) ([], false)
  pure st.1

/-- One iteration of the loop of `snakeCaseToPascalCase`, on the state
`(output, isToUpper)`. -/
def pascalStep (U : Unicode) (input : GoString) (st : GoString × Bool) (kv : Nat × Char) :
    Except GoPanic (GoString × Bool) :=
  if kv.1 = 0 then do
    let b ← byteAt input 0
    pure (stringsToUpper U (byteToString b), st.2)
  else if st.2 then
    pure (st.1 ++ stringsToUpper U [kv.2], false)
  else if kv.2 = '_' then
    pure (st.1, true)
  else
    pure (st.1 ++ [kv.2], st.2)

/-- The function `snakeCaseToPascalCase` (template function `pascalCase`). -/
def snakeCaseToPascalCase (U : Unicode) (input : GoString) : Except GoPanic GoString := do
  let st ← (rangeString 0 input).foldlM (pascalStep U input) ([], false)
  pure st.1

/-- The function `stripNewlines`. -/
def stripNewlines (input : GoString) : GoString :=
  stringsReplaceAll '\n' (lit " ") input


/-! ## The decoded schema (`var schema struct` of `main`) -/

/-- A Go `map[string]V`: its entries, in no particular order, under distinct keys. -/
structure GoMap (V : Type) where
  entries : List (GoString × V)
  nodup : (entries.map Prod.fst).Nodup

/-- Go's `a <= b` on strings, byte by byte. -/
def bytesLE : List Nat → List Nat → Bool
  | [], _ => true
  | _ :: _, [] => false
  | a :: as, b :: bs => a < b || (a == b && bytesLE as bs)

/-- Order of the keys of a map: Go's string comparison of the UTF-8 bytes. -/
def keyLE (a b : GoString) : Bool := bytesLE (utf8Bytes a) (utf8Bytes b)

/-- The entries of a map as `text/template` visits them in `range`: in sorted
key order. -/
def GoMap.sortedEntries {V : Type} (m : GoMap V) : List (GoString × V) :=
  m.entries.insertionSort (fun a b => keyLE a.1 b.1 = true)

/-- The field `Items` of a property (`struct { Type string; Ref string }`). -/
structure PropertyItems where
  Type_ : GoString
  Ref : GoString

/-- A property of a definition. -/
structure Property where
  Type_ : GoString
  Ref : GoString
  Items : PropertyItems
  Format : GoString
  Description : GoString

/-- An element of `schema.Definitions`. -/
structure Definition where
  Properties : GoMap Property
  Description : GoString

/-- The field `Items` of a parameter (`struct { Type string }`). -/
structure ParameterItems where
  Type_ : GoString

/-- The field `Schema` of a parameter (`struct { Type string; Ref string }`). -/
structure ParameterSchema where
  Type_ : GoString
  Ref : GoString

/-- An element of `Parameters`. -/
structure Parameter where
  Name : GoString
  In : GoString
  Required : Bool
  Type_ : GoString
  Items : ParameterItems
  Schema : ParameterSchema

/-- An operation: an element of `schema.Paths[url][method]`. `ResponsesOkSchemaRef`
is the field `Responses.Ok.Schema.Ref`; an element of `Security` maps a scheme name
to a `[]struct{}`. -/
structure Operation where
  Summary : GoString
  OperationId : GoString
  ResponsesOkSchemaRef : GoString
  Parameters : List Parameter
  Security : List (GoMap (List Unit))

/-- The decoded schema document. -/
structure Schema where
  Paths : GoMap (GoMap Operation)
  Definitions : GoMap Definition

/-! ## Execution of `codeTemplate`

Every text node is written as the template has it once the `{{-` markers have
trimmed the white space before them. -/

/-- The action `range` over a list: the output of the body for every element, in
order. An error of the body ends the execution. -/
def rangeList {α : Type} (body : α → Except GoPanic GoString) :
    List α → Except GoPanic GoString
  | [] => pure []
  | x :: xs => do
    let a ← body x
    let b ← rangeList body xs
    pure (a ++ b)

/-- The action `range $key, $value := m` over a map. -/
def rangeMap {V : Type} (m : GoMap V) (body : GoString → V → Except GoPanic GoString) :
    Except GoPanic GoString :=
  rangeList (fun kv => body kv.1 kv.2) m.sortedEntries

/-- Template lines 49-74: the accessor of one property in `public interface`. -/
def interfaceProperty (U : Unicode) (propname : GoString) (property : Property) :
    Except GoPanic GoString := do
  let fieldname ← snakeCaseToPascalCase U propname
  pure (lit "\n\n        /// <summary>\n        /// " ++ property.Description ++
    lit "\n        /// </summary>" ++
    (if property.Type_ = lit "integer" then
      lit "\n        int " ++ fieldname ++ lit " \x7b get; \x7d"
    else if property.Type_ = lit "boolean" then
      lit "\n        bool " ++ fieldname ++ lit " \x7b get; \x7d"
    else if property.Type_ = lit "string" then
      lit "\n        string " ++ fieldname ++ lit " \x7b get; \x7d"
    else if property.Type_ = lit "array" then
      (if property.Items.Type_ = lit "string" then
        lit "\n        List<string> " ++ fieldname ++ lit " \x7b get; \x7d"
      else if property.Items.Type_ = lit "integer" then
        lit "\n        List<int> " ++ fieldname ++ lit " \x7b get; \x7d"
      else if property.Items.Type_ = lit "boolean" then
        lit "\n        List<bool> " ++ fieldname ++ lit " \x7b get; \x7d"
      else
        lit "\n        IEnumerable<I" ++ convertRefToClassName U property.Items.Ref ++ lit "> " ++
          fieldname ++ lit " \x7b get; \x7d")
    else
      lit "\n        I" ++ convertRefToClassName U property.Ref ++ lit " " ++ fieldname ++
        lit " \x7b get; \x7d"))

/-- Template lines 44-75: the declaration `public interface I<classname>`. -/
def interfaceDecl (U : Unicode) (classname : GoString) (definition : Definition) :
    Except GoPanic GoString := do
  let accessors ← rangeMap definition.Properties (interfaceProperty U)
  pure (lit "\n\n    /// <summary>\n    /// " ++ stripNewlines definition.Description ++
    lit "\n    /// </summary>\n    public interface I" ++ classname ++ lit "\n    \x7b" ++
    accessors ++ lit "\n    \x7d")

/-- The template line `[DataMember(Name="{{ $propname }}")]`, which stands in every
branch of the member of a property. -/
def dataMember (propname : GoString) : GoString :=
  lit "\n        [DataMember(Name=\"" ++ propname ++ lit "\")]"

/-- Template lines 80-113: the member of one property in `internal class`. -/
def classProperty (U : Unicode) (propname : GoString) (property : Property) :
    Except GoPanic GoString := do
  let fieldname ← snakeCaseToPascalCase U propname
  let member ←
    if property.Type_ = lit "integer" then
      pure (dataMember propname ++ lit "\n        public int " ++ fieldname ++
        lit " \x7b get; set; \x7d")
    else if property.Type_ = lit "boolean" then
      pure (dataMember propname ++ lit "\n        public bool " ++ fieldname ++
        lit " \x7b get; set; \x7d")
    else if property.Type_ = lit "string" then
      pure (dataMember propname ++ lit "\n        public string " ++ fieldname ++
        lit " \x7b get; set; \x7d")
    else if property.Type_ = lit "array" then
      (if property.Items.Type_ = lit "string" then
        pure (dataMember propname ++ lit "\n        public List<string> " ++ fieldname ++
          lit " \x7b get; set; \x7d")
      else if property.Items.Type_ = lit "integer" then
        pure (dataMember propname ++ lit "\n        public List<int> " ++ fieldname ++
          lit " \x7b get; set; \x7d")
      else if property.Items.Type_ = lit "boolean" then
        pure (dataMember propname ++ lit "\n        public List<bool> " ++ fieldname ++
          lit " \x7b get; set; \x7d")
      else do
        let camelname ← snakeCaseToCamelCase U propname
        pure (lit "\n        public IEnumerable<I" ++ convertRefToClassName U property.Items.Ref ++
          lit "> " ++ fieldname ++ lit " => _" ++ camelname ++ lit " ?? new List<" ++
          convertRefToClassName U property.Items.Ref ++ lit ">(0);" ++
          dataMember propname ++ lit "\n        public List<" ++
          convertRefToClassName U property.Items.Ref ++ lit "> _" ++ camelname ++
          lit " \x7b get; set; \x7d"))
    else do
      let camelname ← snakeCaseToCamelCase U propname
      pure (lit "\n        public I" ++ convertRefToClassName U property.Ref ++ lit " " ++
        fieldname ++ lit " => _" ++ camelname ++ lit ";" ++ dataMember propname ++
        lit "\n        public " ++ convertRefToClassName U property.Ref ++ lit " _" ++
        camelname ++ lit " \x7b get; set; \x7d")
  pure (lit "\n\n        /// <inheritdoc />" ++ member)

/-- Template lines 118-124: the statement of one property in `ToString()`. -/
def toStringStatement (U : Unicode) (fieldname : GoString) (property : Property) :
    Except GoPanic GoString := do
  let name ← snakeCaseToPascalCase U fieldname
  if property.Type_ = lit "array" then
    pure (lit "\n            output = string.Concat(output, \"" ++ name ++
      lit ": [\", string.Join(\", \", " ++ name ++ lit "), \"], \");")
  else
    pure (lit "\n            output = string.Concat(output, \"" ++ name ++ lit ": \", " ++ name ++
      lit ", \", \");")

/-- Template lines 77-127: the declaration `internal class <classname>`. -/
def classDecl (U : Unicode) (classname : GoString) (definition : Definition) :
    Except GoPanic GoString := do
  let members ← rangeMap definition.Properties (classProperty U)
  let statements ← rangeMap definition.Properties (toStringStatement U)
  pure (lit "\n\n    /// <inheritdoc />\n    internal class " ++ classname ++ lit " : I" ++
    classname ++ lit "\n    \x7b" ++ members ++
    lit "\n\n        public override string ToString()\n        \x7b\n            var output = \"\";" ++
    statements ++ lit "\n            return output;\n        \x7d\n    \x7d")

/-- Template lines 41-128: the body of `range $defname, $definition := .Definitions`. -/
def definitionDecl (U : Unicode) (defname : GoString) (definition : Definition) :
    Except GoPanic GoString := do
  let classname := stringsTitle U defname
  let iface ← interfaceDecl U classname definition
  let cls ← classDecl U classname definition
  pure (iface ++ cls)

/-- Template lines 156-169: the credential parameters of a method. `if
$operation.Security` holds for a non-empty slice, whose element 0 is then ranged
over (`with` skips an empty map, over which `range` emits nothing either). -/
def credentialParameters (operation : Operation) : Except GoPanic GoString :=
  match operation.Security with
  | [] => pure (lit "\n            string bearerToken")
  | first :: _ =>
    rangeMap first (fun key _ =>
      if key = lit "BasicAuth" then
        pure (lit "\n            string username\n            , string password")
      else if key = lit "HttpKeyAuth" then
        pure (lit "\n            string bearerToken")
      else
        pure [])

/-- Template lines 171-190: one parameter in the parameter list of a method. -/
def methodParameter (U : Unicode) (parameter : Parameter) : Except GoPanic GoString := do
  let camelcase ← snakeCaseToCamelCase U parameter.Name
  pure
    (if parameter.In = lit "path" then
      lit "\n            , " ++ parameter.Type_ ++
        (if !parameter.Required then lit "?" else []) ++ lit " " ++ camelcase
    else if parameter.In = lit "body" then
      (if parameter.Schema.Type_ = lit "string" then
        lit "\n            , string" ++ (if !parameter.Required then lit "?" else []) ++
          lit " " ++ camelcase
      else
        lit "\n            , " ++ convertRefToClassName U parameter.Schema.Ref ++
          (if !parameter.Required then lit "?" else []) ++ lit " " ++ camelcase)
    else if parameter.Type_ = lit "array" then
      lit "\n            , IEnumerable<" ++ parameter.Items.Type_ ++ lit "> " ++ camelcase
    else if parameter.Type_ = lit "integer" then
      lit "\n            , int " ++ camelcase
    else if parameter.Type_ = lit "boolean" then
      lit "\n            , bool " ++ camelcase
    else
      lit "\n            , " ++ parameter.Type_ ++ lit " " ++ camelcase)

/-- Template lines 193-201: the null check of one parameter. -/
def requiredCheck (U : Unicode) (parameter : Parameter) : Except GoPanic GoString := do
  let camelcase ← snakeCaseToCamelCase U parameter.Name
  pure
    (if parameter.Required then
      lit "\n            if (" ++ camelcase ++
        lit " == null)\n            \x7b\n                throw new ArgumentException(\"'" ++
        camelcase ++ lit "' is required but was null.\");\n            \x7d"
    else [])

/-- Template lines 204-209: the substitution of one path parameter into the URL. -/
def pathSubstitution (U : Unicode) (parameter : Parameter) : Except GoPanic GoString := do
  let camelcase ← snakeCaseToCamelCase U parameter.Name
  pure
    (if parameter.In = lit "path" then
      lit "\n            urlpath = urlpath.Replace(\"" ++
        (lit "\x7b" ++ parameter.Name ++ lit "\x7d") ++
        lit "\", Uri.EscapeDataString(" ++ camelcase ++ lit "));"
    else [])

/-- Go's `fmt.Fprint` of a `bool`. -/
def printBool (b : Bool) : GoString := if b then lit "true" else lit "false"

/-- The action `{{ $parameter }}`: Go's `fmt.Fprint` of the parameter struct,
`{Name In Required Type {Items.Type} {Schema.Type Schema.Ref}}`. -/
def printParameter (parameter : Parameter) : GoString :=
  lit "\x7b" ++ parameter.Name ++ lit " " ++ parameter.In ++ lit " " ++
    printBool parameter.Required ++ lit " " ++ parameter.Type_ ++ lit " \x7b" ++
    parameter.Items.Type_ ++ lit "\x7d \x7b" ++ parameter.Schema.Type_ ++ lit " " ++
    parameter.Schema.Ref ++ lit "\x7d\x7d"

/-- Template lines 211-229: the statement appending one query parameter to the URL. -/
def queryAppend (U : Unicode) (parameter : Parameter) : Except GoPanic GoString := do
  let camelcase ← snakeCaseToCamelCase U parameter.Name
  pure
    (if parameter.In = lit "query" then
      (if parameter.Type_ = lit "integer" then
        lit "\n            urlpath = string.Concat(urlpath, \"" ++ parameter.Name ++
          lit "=\", " ++ camelcase ++ lit ", \"&\");"
      else if parameter.Type_ = lit "string" then
        lit "\n            urlpath = string.Concat(urlpath, \"" ++ parameter.Name ++
          lit "=\", Uri.EscapeDataString(" ++ camelcase ++ lit "), \"&\");"
      else if parameter.Type_ = lit "boolean" then
        lit "\n            urlpath = string.Concat(urlpath, \"" ++ parameter.Name ++
          lit "=\", " ++ camelcase ++ lit ".ToString().ToLower(), \"&\");"
      else if parameter.Type_ = lit "array" then
        lit "\n            foreach (var elem in " ++ camelcase ++
          lit ")\n            \x7b\n                urlpath = string.Concat(urlpath, \"" ++
          parameter.Name ++ lit "=\", elem, \"&\");\n            \x7d"
      else
        lit "\n            " ++ printParameter parameter ++ lit " // ERROR")
    else [])

/-- Template lines 241-260: the statements setting the authorization header. -/
def authorizationHeader (operation : Operation) : Except GoPanic GoString :=
  match operation.Security with
  | [] =>
    pure (lit ("\n            var header = string.Concat(\"Bearer \", bearerToken);" ++
      "\n            request.Headers.Authorization = AuthenticationHeaderValue.Parse(header);"))
  | first :: _ =>
    rangeMap first (fun key _ =>
      if key = lit "BasicAuth" then
        pure (lit ("\n            var credentials = Encoding.UTF8.GetBytes(username + \":\" + password);" ++
          "\n            var header = string.Concat(\"Basic \", Convert.ToBase64String(credentials));" ++
          "\n            request.Headers.Authorization = AuthenticationHeaderValue.Parse(header);"))
      else if key = lit "HttpKeyAuth" then
        pure (lit ("\n            if (!string.IsNullOrEmpty(bearerToken))\n            \x7b" ++
          "\n                var header = string.Concat(\"Bearer \", bearerToken);" ++
          "\n                request.Headers.Authorization = AuthenticationHeaderValue.Parse(header);" ++
          "\n            \x7d"))
      else
        pure [])

/-- Template lines 262-267: the request content of one body parameter. -/
def bodyContent (U : Unicode) (parameter : Parameter) : Except GoPanic GoString := do
  let camelcase ← snakeCaseToCamelCase U parameter.Name
  pure
    (if parameter.In = lit "body" then
      lit "\n            request.Content = new StringContent(" ++ camelcase ++ lit ".ToJson());"
    else [])

/-- Template lines 152-155: the summary comment and the head of the signature of
a method, up to the opening parenthesis. -/
def methodSignature (U : Unicode) (operation : Operation) (methodname : GoString) : GoString :=
  lit "\n\n        /// <summary>\n        /// " ++ stripNewlines operation.Summary ++
    lit "\n        /// </summary>\n        public async Task<I" ++
    convertRefToClassName U operation.ResponsesOkSchemaRef ++ lit "> " ++ methodname ++
    lit "Async("

/-- Template lines 190-192: the end of the parameter list and the start of the body. -/
def methodBodyOpen : GoString :=
  lit ")\n        \x7b\n        \tHttpClient client = new HttpClient(); // FIXME"

/-- Template line 203: the declaration of `urlpath`. -/
def urlpathDeclaration (url : GoString) : GoString :=
  lit "\n\n            var urlpath = \"" ++ url ++ lit "?\";"

/-- Template lines 231-239: the request envelope. -/
def requestDeclaration (U : Unicode) (method : GoString) : GoString :=
  lit ("\n\n            var request = new HttpRequestMessage\n            \x7b" ++
      "\n                RequestUri = new Uri(_baseUri, urlpath)," ++
      "\n                Method = new HttpMethod(\"") ++
    stringsToUpper U method ++
    lit ("\"),\n                Headers =\n                \x7b" ++
      "\n                    Accept = \x7bnew MediaTypeWithQualityHeaderValue(\"application/json\")\x7d" ++
      "\n                \x7d\n            \x7d;")

/-- Template lines 269-273: the dispatch of the request and the decoding of the
response. -/
def dispatchStatements (U : Unicode) (operation : Operation) : GoString :=
  lit ("\n\n            var response = await client.SendAsync(request);" ++
      "\n            response.EnsureSuccessStatusCode();" ++
      "\n            var contents = await response.Content.ReadAsStringAsync();" ++
      "\n            return contents.FromJson<") ++
    convertRefToClassName U operation.ResponsesOkSchemaRef ++ lit ">();\n        \x7d"

/-- Template lines 152-273: the method of one operation, the body of
`range $method, $operation := $path` inside `range $url, $path := .Paths`. -/
def operationMethod (U : Unicode) (url method : GoString) (operation : Operation) :
    Except GoPanic GoString := do
  let methodname ← snakeCaseToPascalCase U operation.OperationId
  let credentials ← credentialParameters operation
  let parameters ← rangeList (methodParameter U) operation.Parameters
  let checks ← rangeList (requiredCheck U) operation.Parameters
  let substitutions ← rangeList (pathSubstitution U) operation.Parameters
  let queries ← rangeList (queryAppend U) operation.Parameters
  let header ← authorizationHeader operation
  let content ← rangeList (bodyContent U) operation.Parameters
  pure (methodSignature U operation methodname ++ credentials ++ parameters ++ methodBodyOpen ++
    checks ++ urlpathDeclaration url ++ substitutions ++ queries ++ requestDeclaration U method ++
    header ++ content ++ dispatchStatements U operation)

/-- The text of the template before `range $defname, $definition := .Definitions`. -/
def fileHeader : GoString :=
  lit ("/* Code generated by openapi-gen/main.go. DO NOT EDIT. */\n\nnamespace Nakama\n\x7b" ++
    "\n    using System;\n    using System.Collections.Generic;\n    using System.Net.Http;" ++
    "\n    using System.Net.Http.Headers;\n    using System.Runtime.Serialization;" ++
    "\n    using System.Text;\n    using System.Threading.Tasks;\n    using TinyJson;")

/-- The text of the template between the two outer `range` actions. -/
def clientHeader : GoString :=
  lit ("\n\n    /// <summary>\n    /// </summary>\n    public interface IRequestDispatcher \x7b" ++
    "\n    \x7d\n\n    /// <summary>\n    /// The low level client for the Nakama API." ++
    "\n    /// </summary>\n    internal class ApiClient\n    \x7b" ++
    "\n        private readonly IRequestDispatcher _dispatcher;" ++
    "\n        private readonly Uri _baseUri;" ++
    "\n\n        public ApiClient(IRequestDispatcher dispatcher, Uri baseUri)\n        \x7b" ++
    "\n        \t_dispatcher = dispatcher;\n        \t_baseUri = baseUri;\n        \x7d")

/-- The text of the template after the last `range`. -/
def fileFooter : GoString := lit "\n    \x7d\n\x7d\n"

/-- The execution of `codeTemplate` over the decoded schema, the call
`tmpl.Execute(w, schema)` of `main`: the text written to `w`. The only error an
action of this template can meet is a panic of a helper function, which ends the
execution. -/
def codeTemplate (U : Unicode) (schema : Schema) : Except GoPanic GoString := do
  let definitions ← rangeMap schema.Definitions (definitionDecl U)
  let methods ← rangeMap schema.Paths (fun url path =>
    rangeMap path (fun method operation => operationMethod U url method operation))
  pure (fileHeader ++ definitions ++ clientHeader ++ methods ++ fileFooter)

/-! ## Closed forms and vocabulary of the statements -/

/-- The first byte of the UTF-8 encoding of a rune: the value of `input[0]` for a
string that starts with this rune. -/
def firstByte (c : Char) : Nat :=
  if c.toNat < 0x80 then c.toNat
  else if c.toNat < 0x800 then 0xC0 + c.toNat / 0x40
  else if c.toNat < 0x10000 then 0xE0 + c.toNat / 0x1000
  else 0xF0 + c.toNat / 0x40000

/-- The loop of `snakeCaseToCamelCase` and `snakeCaseToPascalCase` past the first
rune, as a function of the flag `isToUpper` and of the runes still to visit: what
the iterations with `k != 0` append to the result. -/
def scanTail (U : Unicode) : Bool → GoString → GoString
  | _, [] => []
  | true, v :: vs => U.toUpper v :: scanTail U false vs
  | false, v :: vs => if v = '_' then scanTail U true vs else v :: scanTail U false vs

/-- The value `snakeCaseToPascalCase` returns, in closed form (`pascal_ok`). -/
def pascalName (U : Unicode) : GoString → GoString
  | [] => []
  | c :: cs => U.toUpper (Char.ofNat (firstByte c)) :: scanTail U false cs

/-- The value `snakeCaseToCamelCase` returns, in closed form (`camel_ok`). -/
def camelName (U : Unicode) : GoString → GoString
  | [] => []
  | c :: cs => U.toLower (Char.ofNat (firstByte c)) :: scanTail U false cs

/-- The runes of an identifier: ASCII letters, ASCII digits and the underscore. -/
def isIdentRune (c : Char) : Bool :=
  (48 ≤ c.toNat && c.toNat ≤ 57) || (65 ≤ c.toNat && c.toNat ≤ 90) ||
    (97 ≤ c.toNat && c.toNat ≤ 122) || c = '_'

/-- An identifier: a string of ASCII letters, ASCII digits and underscores. -/
def IsIdentifier (s : GoString) : Prop := ∀ c ∈ s, isIdentRune c = true

instance : DecidablePred IsIdentifier := fun s => by
  unfold IsIdentifier; infer_instance

/-- A string of ASCII runes. -/
def IsASCII (s : GoString) : Prop := ∀ c ∈ s, c.toNat ≤ 127

instance : DecidablePred IsASCII := fun s => by
  unfold IsASCII; infer_instance

/-- A string with only its first rune upper-cased. -/
def upperFirst (U : Unicode) : GoString → GoString
  | [] => []
  | c :: cs => U.toUpper c :: cs

/-- A string with only its first rune lower-cased. -/
def lowerFirst (U : Unicode) : GoString → GoString
  | [] => []
  | c :: cs => U.toLower c :: cs

/-- The segments of an underscore-delimited identifier: the pieces between the
underscores, as `strings.Split(s, "_")` gives them. -/
def splitUnderscore : GoString → List GoString
  | [] => [[]]
  | c :: cs =>
    if c = '_' then [] :: splitUnderscore cs
    else
      match splitUnderscore cs with
      | [] => [[c]]
      | w :: ws => (c :: w) :: ws

/-- The segments joined without underscores, the first rune of every segment
upper-cased. -/
def pascalOfSegments (U : Unicode) (ws : List GoString) : GoString :=
  (ws.map (upperFirst U)).flatten

/-- The segments joined without underscores, the first rune of the first segment
lower-cased and the first rune of every later segment upper-cased. -/
def camelOfSegments (U : Unicode) : List GoString → GoString
  | [] => []
  | w :: ws => lowerFirst U w ++ (ws.map (upperFirst U)).flatten

/-- The segments joined without underscores, the first segment unchanged and the
first rune of every later segment upper-cased. -/
def tailOfSegments (U : Unicode) : List GoString → GoString
  | [] => []
  | w :: ws => w ++ (ws.map (upperFirst U)).flatten

/-- The element kinds of `ArrayOf(ElementType)` in the data model of the
specification. -/
inductive ElementType where
  | integer
  | boolean
  | string
  | reference (r : GoString)

/-- The tagged variant `PropertyType` of the data model of the specification. -/
inductive PropertyType where
  | integer
  | boolean
  | string
  | arrayOf (e : ElementType)
  | referenceTo (r : GoString)

/-- The `PropertyType` a decoded property stands for, when it is one of the table:
a primitive carries its name in `type`, an array carries `"array"` and its element
in `items`, and a reference carries no `type` and a non-empty `$ref`. -/
def Property.kind (p : Property) : Option PropertyType :=
  if p.Type_ = lit "integer" then some .integer
  else if p.Type_ = lit "boolean" then some .boolean
  else if p.Type_ = lit "string" then some .string
  else if p.Type_ = lit "array" then
    (if p.Items.Type_ = lit "string" then some (.arrayOf .string)
    else if p.Items.Type_ = lit "integer" then some (.arrayOf .integer)
    else if p.Items.Type_ = lit "boolean" then some (.arrayOf .boolean)
    else if p.Items.Type_ = [] ∧ p.Items.Ref ≠ [] then some (.arrayOf (.reference p.Items.Ref))
    else none)
  else if p.Type_ = [] ∧ p.Ref ≠ [] then some (.referenceTo p.Ref)
  else none

/-- The fixed table of accessor types: `int`, `bool`, `string`, `List<...>` of a
primitive, `IEnumerable<I...>` of a referenced type, `I...` for a referenced type. -/
def PropertyType.accessorType (U : Unicode) : PropertyType → GoString
  | .integer => lit "int"
  | .boolean => lit "bool"
  | .string => lit "string"
  | .arrayOf .string => lit "List<string>"
  | .arrayOf .integer => lit "List<int>"
  | .arrayOf .boolean => lit "List<bool>"
  | .arrayOf (.reference r) => lit "IEnumerable<I" ++ convertRefToClassName U r ++ lit ">"
  | .referenceTo r => lit "I" ++ convertRefToClassName U r

/-- The number of positions of a text at which `pat` occurs. -/
def countOccurrences (pat : GoString) : GoString → Nat
  | [] => 0
  | c :: cs => (if pat <+: c :: cs then 1 else 0) + countOccurrences pat cs

/-! ## Schemas of the examples -/

/-- A property that refers to the definition `apiMissing`. -/
def danglingProperty : Property :=
  { Type_ := [], Ref := lit "#/definitions/apiMissing", Items := ⟨[], []⟩, Format := [],
    Description := lit "A friend." }

/-- A schema whose only definition `apiUser` has the property `friend`, a
reference to `apiMissing`, which the schema does not define. -/
def danglingSchema : Schema :=
  { Paths := ⟨[], by decide⟩
    Definitions := ⟨[(lit "apiUser",
      { Properties := ⟨[(lit "friend", danglingProperty)], by decide⟩
        Description := lit "A user." })], by decide⟩ }

/-- The type declarations that `codeTemplate` writes for `danglingSchema`. -/
def danglingDeclarations : GoString :=
  lit ("\n\n    /// <summary>\n    /// A user.\n    /// </summary>\n    public interface IApiUser" ++
    "\n    \x7b\n\n        /// <summary>\n        /// A friend.\n        /// </summary>" ++
    "\n        IApiMissing Friend \x7b get; \x7d\n    \x7d" ++
    "\n\n    /// <inheritdoc />\n    internal class ApiUser : IApiUser\n    \x7b" ++
    "\n\n        /// <inheritdoc />\n        public IApiMissing Friend => _friend;" ++
    "\n        [DataMember(Name=\"friend\")]\n        public ApiMissing _friend \x7b get; set; \x7d" ++
    "\n\n        public override string ToString()\n        \x7b\n            var output = \"\";" ++
    "\n            output = string.Concat(output, \"Friend: \", Friend, \", \");" ++
    "\n            return output;\n        \x7d\n    \x7d")

/-- A property of type `number`, without `$ref`. -/
def numberProperty : Property :=
  { Type_ := lit "number", Ref := [], Items := ⟨[], []⟩, Format := [],
    Description := lit "The wallet." }

/-- A schema whose only definition `apiAccount` has the property `wallet` of
type `number`. -/
def numberSchema : Schema :=
  { Paths := ⟨[], by decide⟩
    Definitions := ⟨[(lit "apiAccount",
      { Properties := ⟨[(lit "wallet", numberProperty)], by decide⟩
        Description := lit "An account." })], by decide⟩ }

/-- The type declarations that `codeTemplate` writes for `numberSchema`. -/
def numberDeclarations : GoString :=
  lit ("\n\n    /// <summary>\n    /// An account.\n    /// </summary>" ++
    "\n    public interface IApiAccount\n    \x7b" ++
    "\n\n        /// <summary>\n        /// The wallet.\n        /// </summary>" ++
    "\n        I Wallet \x7b get; \x7d\n    \x7d" ++
    "\n\n    /// <inheritdoc />\n    internal class ApiAccount : IApiAccount\n    \x7b" ++
    "\n\n        /// <inheritdoc />\n        public I Wallet => _wallet;" ++
    "\n        [DataMember(Name=\"wallet\")]\n        public  _wallet \x7b get; set; \x7d" ++
    "\n\n        public override string ToString()\n        \x7b\n            var output = \"\";" ++
    "\n            output = string.Concat(output, \"Wallet: \", Wallet, \", \");" ++
    "\n            return output;\n        \x7d\n    \x7d")

/-- A definition with the integer property `create_time` and the array-of-string
property `labels`. -/
def sessionDefinition : Definition :=
  { Properties := ⟨[
      (lit "labels",
        { Type_ := lit "array", Ref := [], Items := ⟨lit "string", []⟩, Format := [],
          Description := lit "The labels." }),
      (lit "create_time",
        { Type_ := lit "integer", Ref := [], Items := ⟨[], []⟩, Format := [],
          Description := lit "The creation time." })], by decide⟩
    Description := lit "A session." }

/-! ## The schema document and the examples of the operations -/

/-- The assignment `m[k] = v` of Go. -/
def GoMap.set {V : Type} (m : GoMap V) (k : GoString) (v : V) : GoMap V :=
  { entries := (k, v) :: m.entries.filter (fun e => decide (e.1 ≠ k))
    nodup := by
      have h1 : ((m.entries.filter (fun e => decide (e.1 ≠ k))).map Prod.fst).Nodup :=
        m.nodup.sublist ((List.filter_sublist _).map Prod.fst)
      simp only [List.map_cons, List.nodup_cons]
      refine ⟨?_, h1⟩
      intro hk
      obtain ⟨e, he, hek⟩ := List.mem_map.mp hk
      have h2 := (List.mem_filter.mp he).2
      simp only [decide_eq_true_eq] at h2
      exact h2 hek }

/-- The decoding of a JSON object into a Go map by `json.Unmarshal`: the members
are stored one after the other in the order of the document, a later member
taking the place of an earlier one of the same name. The map keeps no trace of
the order. -/
def decodeObject {V : Type} (members : List (GoString × V)) : GoMap V :=
  members.foldl (fun m kv => m.set kv.1 kv.2) ⟨[], List.nodup_nil⟩

/-- The operation `healthcheck` without parameters, under the given `security`. -/
def healthcheckOperation (security : List (GoMap (List Unit))) : Operation :=
  { Summary := lit "A healthcheck."
    OperationId := lit "healthcheck"
    ResponsesOkSchemaRef := lit "#/definitions/protobufEmpty"
    Parameters := []
    Security := security }

/-- The security alternative `{}`, which names no scheme. -/
def noScheme : GoMap (List Unit) := ⟨[], by decide⟩

/-- The security alternative `{"HttpKeyAuth": [], "BasicAuth": []}`, which names
both schemes. -/
def bothSchemes : GoMap (List Unit) :=
  ⟨[(lit "HttpKeyAuth", []), (lit "BasicAuth", [])], by decide⟩

/-- The query parameter `ids`, an array of strings. -/
def idsParameter : Parameter :=
  { Name := lit "ids", In := lit "query", Required := false, Type_ := lit "array",
    Items := ⟨lit "string"⟩, Schema := ⟨[], []⟩ }

/-- The required path parameter `id` of type `integer`. -/
def idParameter : Parameter :=
  { Name := lit "id", In := lit "path", Required := true, Type_ := lit "integer",
    Items := ⟨[]⟩, Schema := ⟨[], []⟩ }

/-- The integer property whose description runs over two lines. -/
def twoLineProperty : Property :=
  { Type_ := lit "integer", Ref := [], Items := ⟨[], []⟩, Format := [],
    Description := lit "The creation\ntime." }

/-- A string property described by `description`. -/
def stringProperty (description : GoString) : Property :=
  { Type_ := lit "string", Ref := [], Items := ⟨[], []⟩, Format := [],
    Description := description }

/-- An integer property described by `description`. -/
def integerProperty (description : GoString) : Property :=
  { Type_ := lit "integer", Ref := [], Items := ⟨[], []⟩, Format := [],
    Description := description }

/-- The definitions of a document in the order it declares them: `b` before `a`,
and in `a` the property `y` before the property `x`. -/
def reversedDocument : List (GoString × Definition) :=
  [(lit "b", { Properties := decodeObject [], Description := lit "B." }),
   (lit "a",
    { Properties := decodeObject
        [(lit "y", stringProperty (lit "Y.")), (lit "x", integerProperty (lit "X."))],
      Description := lit "A." })]

/-- The schema decoded from `reversedDocument`. -/
def reversedSchema : Schema :=
  { Paths := decodeObject [], Definitions := decodeObject reversedDocument }

/-- The type declarations that `codeTemplate` writes for `reversedSchema`: those
of `a` with the property `x` before the property `y`, then those of `b`. -/
def reversedDeclarations : GoString :=
  lit ("\n\n    /// <summary>\n    /// A.\n    /// </summary>\n    public interface IA\n    \x7b" ++
    "\n\n        /// <summary>\n        /// X.\n        /// </summary>\n        int X \x7b get; \x7d" ++
    "\n\n        /// <summary>\n        /// Y.\n        /// </summary>\n        string Y \x7b get; \x7d" ++
    "\n    \x7d\n\n    /// <inheritdoc />\n    internal class A : IA\n    \x7b" ++
    "\n\n        /// <inheritdoc />\n        [DataMember(Name=\"x\")]\n        public int X \x7b get; set; \x7d" ++
    "\n\n        /// <inheritdoc />\n        [DataMember(Name=\"y\")]\n        public string Y \x7b get; set; \x7d" ++
    "\n\n        public override string ToString()\n        \x7b\n            var output = \"\";" ++
    "\n            output = string.Concat(output, \"X: \", X, \", \");" ++
    "\n            output = string.Concat(output, \"Y: \", Y, \", \");" ++
    "\n            return output;\n        \x7d\n    \x7d" ++
    "\n\n    /// <summary>\n    /// B.\n    /// </summary>\n    public interface IB\n    \x7b\n    \x7d" ++
    "\n\n    /// <inheritdoc />\n    internal class B : IB\n    \x7b" ++
    "\n\n        public override string ToString()\n        \x7b\n            var output = \"\";" ++
    "\n            return output;\n        \x7d\n    \x7d")

/-- The head of the method that `operationMethod` writes for the operation
`healthcheck`, up to the opening parenthesis. -/
def healthcheckHead : GoString :=
  lit ("\n\n        /// <summary>\n        /// A healthcheck.\n        /// </summary>" ++
    "\n        public async Task<IProtobufEmpty> HealthcheckAsync(")

/-- The statements that set a `Basic` authorization header. -/
def basicHeaderStatements : GoString :=
  lit ("\n            var credentials = Encoding.UTF8.GetBytes(username + \":\" + password);" ++
    "\n            var header = string.Concat(\"Basic \", Convert.ToBase64String(credentials));" ++
    "\n            request.Headers.Authorization = AuthenticationHeaderValue.Parse(header);")

/-- The statements that set a `Bearer` authorization header when the token is not
empty. -/
def bearerHeaderStatements : GoString :=
  lit ("\n            if (!string.IsNullOrEmpty(bearerToken))\n            \x7b" ++
    "\n                var header = string.Concat(\"Bearer \", bearerToken);" ++
    "\n                request.Headers.Authorization = AuthenticationHeaderValue.Parse(header);" ++
    "\n            \x7d")

/-! ## The naming rules -/


theorem utf8Len_pos (c : Char) : 0 < utf8Len c := by
  unfold utf8Len; split_ifs <;> omega

theorem byteAt_cons_zero (c : Char) (cs : GoString) : byteAt (c :: cs) 0 = .ok (firstByte c) := by
  unfold byteAt utf8Bytes utf8EncodeRune firstByte
  split_ifs <;> simp [*]

theorem pascalStep_upper (U : Unicode) (input acc : GoString) (k : Nat) (v : Char) (hk : k ≠ 0) :
    pascalStep U input (acc, true) (k, v) = .ok (acc ++ [U.toUpper v], false) := by
  simp [pascalStep, hk, stringsToUpper, pure, Except.pure]

theorem pascalStep_underscore (U : Unicode) (input acc : GoString) (k : Nat) (hk : k ≠ 0) :
    pascalStep U input (acc, false) (k, '_') = .ok (acc, true) := by
  simp [pascalStep, hk, pure, Except.pure]

theorem pascalStep_plain (U : Unicode) (input acc : GoString) (k : Nat) (v : Char) (hk : k ≠ 0)
    (hv : v ≠ '_') : pascalStep U input (acc, false) (k, v) = .ok (acc ++ [v], false) := by
  simp [pascalStep, hk, hv, pure, Except.pure]

theorem pascalStep_first (U : Unicode) (c : Char) (cs acc : GoString) (flag : Bool) (v : Char) :
    pascalStep U (c :: cs) (acc, flag) (0, v) = .ok ([U.toUpper (Char.ofNat (firstByte c))], flag) := by
  simp [pascalStep, byteAt_cons_zero, stringsToUpper, byteToString, bind, Except.bind, pure, Except.pure]

theorem foldlM_cons_ok {σ α : Type} (f : σ → α → Except GoPanic σ) (s s1 : σ) (a : α) (l : List α)
    (h : f s a = .ok s1) : (a :: l).foldlM f s = l.foldlM f s1 := by
  simp [List.foldlM, h, bind, Except.bind]

theorem pascal_fold_tail (U : Unicode) (input : GoString) :
    ∀ (vs : GoString) (k : Nat) (acc : GoString) (flag : Bool), 0 < k →
      ∃ fl, (rangeString k vs).foldlM (pascalStep U input) (acc, flag)
        = Except.ok (acc ++ scanTail U flag vs, fl) := by
  intro vs
  induction vs with
  | nil => intro k acc flag _; exact ⟨flag, by simp [rangeString, scanTail, pure, Except.pure]⟩
  | cons v vs ih =>
    intro k acc flag hk
    have hk0 : k ≠ 0 := by omega
    have hk2 : 0 < k + utf8Len v := by omega
    cases flag with
    | true =>
      obtain ⟨fl, h⟩ := ih (k + utf8Len v) (acc ++ [U.toUpper v]) false hk2
      refine ⟨fl, ?_⟩
      rw [rangeString, foldlM_cons_ok _ _ _ _ _ (pascalStep_upper U input acc k v hk0), h]
      simp [scanTail]
    | false =>
      by_cases hv : v = '_'
      · obtain ⟨fl, h⟩ := ih (k + utf8Len v) acc true hk2
        refine ⟨fl, ?_⟩
        subst hv
        rw [rangeString, foldlM_cons_ok _ _ _ _ _ (pascalStep_underscore U input acc k hk0), h]
        simp [scanTail]
      · obtain ⟨fl, h⟩ := ih (k + utf8Len v) (acc ++ [v]) false hk2
        refine ⟨fl, ?_⟩
        rw [rangeString, foldlM_cons_ok _ _ _ _ _ (pascalStep_plain U input acc k v hk0 hv), h]
        simp [scanTail, hv]

theorem pascal_nil (U : Unicode) : snakeCaseToPascalCase U [] = .ok [] := by
  simp [snakeCaseToPascalCase, rangeString, bind, Except.bind, pure, Except.pure]

theorem pascal_cons (U : Unicode) (c : Char) (cs : GoString) :
    snakeCaseToPascalCase U (c :: cs) = .ok (U.toUpper (Char.ofNat (firstByte c)) :: scanTail U false cs) := by
  obtain ⟨fl, h⟩ := pascal_fold_tail U (c :: cs) cs (0 + utf8Len c) [U.toUpper (Char.ofNat (firstByte c))] false
    (by have := utf8Len_pos c; omega)
  unfold snakeCaseToPascalCase
  rw [rangeString, foldlM_cons_ok _ _ _ _ _ (pascalStep_first U c cs [] false c), h]
  simp [bind, Except.bind, pure, Except.pure]

theorem camelStep_upper (U : Unicode) (input acc : GoString) (k : Nat) (v : Char) (hk : k ≠ 0) :
    camelStep U input (acc, true) (k, v) = .ok (acc ++ [U.toUpper v], false) := by
  simp [camelStep, hk, stringsToUpper, pure, Except.pure]

theorem camelStep_underscore (U : Unicode) (input acc : GoString) (k : Nat) (hk : k ≠ 0) :
    camelStep U input (acc, false) (k, '_') = .ok (acc, true) := by
  simp [camelStep, hk, pure, Except.pure]

theorem camelStep_plain (U : Unicode) (input acc : GoString) (k : Nat) (v : Char) (hk : k ≠ 0)
    (hv : v ≠ '_') : camelStep U input (acc, false) (k, v) = .ok (acc ++ [v], false) := by
  simp [camelStep, hk, hv, pure, Except.pure]

theorem camelStep_first (U : Unicode) (c : Char) (cs acc : GoString) (flag : Bool) (v : Char) :
    camelStep U (c :: cs) (acc, flag) (0, v) = .ok ([U.toLower (Char.ofNat (firstByte c))], flag) := by
  simp [camelStep, byteAt_cons_zero, stringsToLower, byteToString, bind, Except.bind, pure, Except.pure]

theorem camel_fold_tail (U : Unicode) (input : GoString) :
    ∀ (vs : GoString) (k : Nat) (acc : GoString) (flag : Bool), 0 < k →
      ∃ fl, (rangeString k vs).foldlM (camelStep U input) (acc, flag)
        = Except.ok (acc ++ scanTail U flag vs, fl) := by
  intro vs
  induction vs with
  | nil => intro k acc flag _; exact ⟨flag, by simp [rangeString, scanTail, pure, Except.pure]⟩
  | cons v vs ih =>
    intro k acc flag hk
    have hk0 : k ≠ 0 := by omega
    have hk2 : 0 < k + utf8Len v := by omega
    cases flag with
    | true =>
      obtain ⟨fl, h⟩ := ih (k + utf8Len v) (acc ++ [U.toUpper v]) false hk2
      refine ⟨fl, ?_⟩
      rw [rangeString, foldlM_cons_ok _ _ _ _ _ (camelStep_upper U input acc k v hk0), h]
      simp [scanTail]
    | false =>
      by_cases hv : v = '_'
      · obtain ⟨fl, h⟩ := ih (k + utf8Len v) acc true hk2
        refine ⟨fl, ?_⟩
        subst hv
        rw [rangeString, foldlM_cons_ok _ _ _ _ _ (camelStep_underscore U input acc k hk0), h]
        simp [scanTail]
      · obtain ⟨fl, h⟩ := ih (k + utf8Len v) (acc ++ [v]) false hk2
        refine ⟨fl, ?_⟩
        rw [rangeString, foldlM_cons_ok _ _ _ _ _ (camelStep_plain U input acc k v hk0 hv), h]
        simp [scanTail, hv]

theorem camel_nil (U : Unicode) : snakeCaseToCamelCase U [] = .ok [] := by
  simp [snakeCaseToCamelCase, rangeString, bind, Except.bind, pure, Except.pure]

theorem camel_cons (U : Unicode) (c : Char) (cs : GoString) :
    snakeCaseToCamelCase U (c :: cs) = .ok (U.toLower (Char.ofNat (firstByte c)) :: scanTail U false cs) := by
  obtain ⟨fl, h⟩ := camel_fold_tail U (c :: cs) cs (0 + utf8Len c) [U.toLower (Char.ofNat (firstByte c))] false
    (by have := utf8Len_pos c; omega)
  unfold snakeCaseToCamelCase
  rw [rangeString, foldlM_cons_ok _ _ _ _ _ (camelStep_first U c cs [] false c), h]
  simp [bind, Except.bind, pure, Except.pure]

theorem ascii_forall {P : Char → Prop} (h : ∀ n : Fin 128, P (Char.ofNat n.val)) (c : Char)
    (hc : c.toNat ≤ 127) : P c := by
  have := h ⟨c.toNat, by omega⟩
  simpa using this

theorem identRune_ascii (c : Char) (h : isIdentRune c = true) : c.toNat ≤ 127 := by
  by_contra hc
  have h1 : c ≠ '_' := by
    intro h2; subst h2; exact hc (by decide)
  simp [isIdentRune, h1] at h
  omega

theorem ofNat_firstByte (c : Char) (h : c.toNat ≤ 127) : Char.ofNat (firstByte c) = c := by
  unfold firstByte
  rw [if_pos (by omega)]
  exact Char.ofNat_toNat c

theorem asciiUpper_ne_underscore (c : Char) (h : c ≠ '_') : asciiUpper c ≠ '_' := by
  by_cases hc : c.toNat ≤ 127
  · revert h
    exact ascii_forall (P := fun c => c ≠ '_' → asciiUpper c ≠ '_') (by decide) c hc
  · unfold asciiUpper; rw [if_neg (by omega)]; exact h

theorem scanTail_no_underscore (U : Unicode) (cs : GoString) (h : '_' ∉ cs) :
    scanTail U false cs = cs := by
  induction cs with
  | nil => rfl
  | cons v vs ih =>
    have hv : v ≠ '_' := fun e => h (by simp [e])
    have hvs : '_' ∉ vs := fun e => h (by simp [e])
    simp [scanTail, hv, ih hvs]

/-- Claim C6: for every identifier `s` without underscore, `snakeCaseToPascalCase`
returns `s` with only its first rune upper-cased and `snakeCaseToCamelCase` returns
`s` with only its first rune lower-cased; every later rune is unchanged. -/
theorem no_underscore_first_rune_only (U : Unicode) (s : GoString)
    (hid : IsIdentifier s) (hno : '_' ∉ s) :
    snakeCaseToPascalCase U s = .ok (upperFirst U s) ∧
    snakeCaseToCamelCase U s = .ok (lowerFirst U s) := by
  cases s with
  | nil => exact ⟨pascal_nil U, camel_nil U⟩
  | cons c cs =>
    have hc : c.toNat ≤ 127 := identRune_ascii c (hid c (by simp))
    have hcs : '_' ∉ cs := fun e => hno (by simp [e])
    rw [pascal_cons, camel_cons, ofNat_firstByte c hc, scanTail_no_underscore U cs hcs]
    exact ⟨rfl, rfl⟩

/-- The identifier `healthcheck` has no underscore; the rules give `Healthcheck`
and `healthcheck`. -/
theorem no_underscore_first_rune_only_witness :
    IsIdentifier (lit "healthcheck") ∧ '_' ∉ (lit "healthcheck") ∧
    snakeCaseToPascalCase asciiUnicode (lit "healthcheck") = .ok (lit "Healthcheck") ∧
    snakeCaseToCamelCase asciiUnicode (lit "healthcheck") = .ok (lit "healthcheck") :=
  ⟨by decide, by decide,
    no_underscore_first_rune_only asciiUnicode (lit "healthcheck") (by decide) (by decide)⟩

/-- Claim C7: for every non-empty identifier `s`, `snakeCaseToPascalCase` and
`snakeCaseToCamelCase` return strings of the same length that agree at every
position but the first, where the pascal result holds the upper-cased and the
camel result the lower-cased first rune of `s`. -/
theorem camel_pascal_differ_in_first_rune (U : Unicode) (s : GoString)
    (hid : IsIdentifier s) (hne : s ≠ []) :
    ∃ p q : GoString, snakeCaseToPascalCase U s = .ok p ∧ snakeCaseToCamelCase U s = .ok q ∧
      p.length = q.length ∧ (∀ i : Nat, 0 < i → p.get? i = q.get? i) ∧
      p.head? = s.head?.map U.toUpper ∧ q.head? = s.head?.map U.toLower := by
  cases s with
  | nil => exact absurd rfl hne
  | cons c cs =>
    have hc : c.toNat ≤ 127 := identRune_ascii c (hid c (by simp))
    refine ⟨_, _, pascal_cons U c cs, camel_cons U c cs, by simp, ?_, ?_, ?_⟩
    · intro i hi
      cases i with
      | zero => exact absurd hi (by decide)
      | succ j => simp
    · simp [ofNat_firstByte c hc]
    · simp [ofNat_firstByte c hc]

/-- The identifier `create_match` gives `CreateMatch` and `createMatch`. -/
theorem camel_pascal_differ_in_first_rune_witness :
    IsIdentifier (lit "create_match") ∧ lit "create_match" ≠ [] ∧
    (∃ p q : GoString, snakeCaseToPascalCase asciiUnicode (lit "create_match") = .ok p ∧
      snakeCaseToCamelCase asciiUnicode (lit "create_match") = .ok q ∧
      p.length = q.length ∧ (∀ i : Nat, 0 < i → p.get? i = q.get? i) ∧
      p.head? = (lit "create_match").head?.map asciiUnicode.toUpper ∧
      q.head? = (lit "create_match").head?.map asciiUnicode.toLower) ∧
    snakeCaseToPascalCase asciiUnicode (lit "create_match") = .ok (lit "CreateMatch") ∧
    snakeCaseToCamelCase asciiUnicode (lit "create_match") = .ok (lit "createMatch") :=
  ⟨by decide, by decide,
    camel_pascal_differ_in_first_rune asciiUnicode (lit "create_match") (by decide) (by decide),
    by decide, by decide⟩

/-- Claim C8: the naming rules are total. On every input string
`snakeCaseToPascalCase` and `snakeCaseToCamelCase` return a string: the index
`input[0]`, the only operation of the four helpers that can panic, is evaluated
inside the loop only, hence never on an empty input. `stripNewlines` and
`convertRefToClassName` call no operation that can fail. All four return the empty
string on the empty string. -/
theorem naming_rules_total (U : Unicode) (s : GoString) :
    (∃ r, snakeCaseToPascalCase U s = .ok r) ∧ (∃ r, snakeCaseToCamelCase U s = .ok r) ∧
    snakeCaseToPascalCase U [] = .ok [] ∧ snakeCaseToCamelCase U [] = .ok [] ∧
    stripNewlines [] = [] ∧ convertRefToClassName U [] = [] := by
  refine ⟨?_, ?_, pascal_nil U, camel_nil U, rfl, rfl⟩
  · cases s with
    | nil => exact ⟨_, pascal_nil U⟩
    | cons c cs => exact ⟨_, pascal_cons U c cs⟩
  · cases s with
    | nil => exact ⟨_, camel_nil U⟩
    | cons c cs => exact ⟨_, camel_cons U c cs⟩

/-- Outside the identifiers the first rune need not be ASCII, and `input[0]` is then
the first byte of its encoding, not the rune: for `é` (bytes `C3 A9`) the rules
return the case mapping of the rune `U+00C3`. -/
theorem first_byte_of_wide_rune (U : Unicode) :
    snakeCaseToPascalCase U (lit "é") = .ok [U.toUpper 'Ã'] ∧
    snakeCaseToCamelCase U (lit "é") = .ok [U.toLower 'Ã'] := by
  have h : Char.ofNat (firstByte 'é') = 'Ã' := by decide
  exact ⟨by rw [show lit "é" = ['é'] from rfl, pascal_cons, h]; rfl,
    by rw [show lit "é" = ['é'] from rfl, camel_cons, h]; rfl⟩

theorem isSeparator_space (T : RuneTables) : isSeparator T ' ' = true := by
  simp [isSeparator]

theorem trimLeft_head_not_mem (cutset : GoString) :
    ∀ (s : GoString) (c : Char) (cs : GoString),
      stringsTrimLeft s cutset = c :: cs → c ∉ cutset := by
  intro s
  induction s with
  | nil => intro c cs h; simp [stringsTrimLeft] at h
  | cons a as ih =>
    intro c cs h
    unfold stringsTrimLeft at h
    rw [List.dropWhile_cons] at h
    by_cases ha : a ∈ cutset
    · simp [ha] at h
      exact ih c cs h
    · simp [ha] at h
      rw [← h.1]; exact ha

theorem trimLeft_of_head_not_mem (cutset : GoString) (c : Char) (cs : GoString) (h : c ∉ cutset) :
    stringsTrimLeft (c :: cs) cutset = c :: cs := by
  simp [stringsTrimLeft, List.dropWhile_cons, h]

theorem cutset_ascii_lower (x : Char) (h : x ∈ lit "#/definitions/") :
    x.toNat ≤ 127 ∧ ¬ (65 ≤ x.toNat ∧ x.toNat ≤ 90) := by
  revert x
  decide

theorem toTitle_not_mem_cutset (U : Unicode) (c : Char) (h : c ∉ lit "#/definitions/") :
    U.toTitle c ∉ lit "#/definitions/" := by
  intro hm
  have h1 := cutset_ascii_lower _ hm
  rcases U.toTitle_changed c with e | e | e
  · rw [e] at hm; exact h hm
  · exact h1.2 e
  · omega

theorem titleFrom_idem (U : Unicode) :
    ∀ (s : GoString) (prev prev2 : Char),
      isSeparator U.toRuneTables prev2 = isSeparator U.toRuneTables prev →
      titleFrom U prev2 (titleFrom U prev s) = titleFrom U prev s := by
  intro s
  induction s with
  | nil => intro _ _ _; rfl
  | cons r rs ih =>
    intro prev prev2 h
    simp only [titleFrom]
    rw [h]
    by_cases hp : isSeparator U.toRuneTables prev = true
    · simp only [hp, if_true]
      rw [U.toTitle_idem, ih r (U.toTitle r) (U.toTitle_separator r)]
    · have hp2 : isSeparator U.toRuneTables prev = false := by simpa using hp
      simp only [hp2]
      simp
      exact ih r r rfl

/-- Claim C5: `convertRefToClassName` is idempotent on every string. -/
theorem convertRefToClassName_idempotent (U : Unicode) (r : GoString) :
    convertRefToClassName U (convertRefToClassName U r) = convertRefToClassName U r := by
  unfold convertRefToClassName
  simp only
  cases ht : stringsTrimLeft r (lit "#/definitions/") with
  | nil => rfl
  | cons c cs =>
    have hc := trimLeft_head_not_mem _ r c cs ht
    have hu : stringsTitle U (c :: cs) = U.toTitle c :: titleFrom U c cs := by
      simp [stringsTitle, titleFrom, isSeparator_space]
    rw [hu, trimLeft_of_head_not_mem _ _ _ (toTitle_not_mem_cutset U c hc), ← hu]
    exact titleFrom_idem U (c :: cs) ' ' ' ' rfl

theorem isSeparator_ascii (T : RuneTables) (c : Char) (hc : c.toNat ≤ 127) :
    isSeparator T c = isSeparator asciiTables c := by
  unfold isSeparator
  rw [if_pos hc, if_pos hc]

theorem titleFrom_ascii (U : Unicode) :
    ∀ (s : GoString) (prev : Char), prev.toNat ≤ 127 → IsASCII s →
      titleFrom U prev s = titleFrom asciiUnicode prev s := by
  intro s
  induction s with
  | nil => intro _ _ _; rfl
  | cons r rs ih =>
    intro prev hp hs
    have hr : r.toNat ≤ 127 := hs r (by simp)
    have hrs : IsASCII rs := fun c hc => hs c (by simp [hc])
    simp only [titleFrom]
    rw [ih r hr hrs, isSeparator_ascii _ prev hp, U.toTitle_ascii r hr]
    rfl

theorem trimLeft_subset (cutset : GoString) (s : GoString) :
    ∀ c ∈ stringsTrimLeft s cutset, c ∈ s := by
  intro c hc
  exact (List.dropWhile_suffix _).subset hc

theorem convertRefToClassName_ascii (U : Unicode) (s : GoString) (hs : IsASCII s) :
    convertRefToClassName U s = convertRefToClassName asciiUnicode s := by
  unfold convertRefToClassName stringsTitle
  exact titleFrom_ascii U _ ' ' (by decide) (fun c hc => hs c (trimLeft_subset _ s c hc))

theorem stringsTitle_ascii (U : Unicode) (s : GoString) (hs : IsASCII s) :
    stringsTitle U s = stringsTitle asciiUnicode s :=
  titleFrom_ascii U s ' ' (by decide) hs

/-- Claim C1, on the code: `strings.TrimLeft` takes `"#/definitions/"` as a set of
runes, so it goes on past the prefix through the leading runes of the name that
belong to the set. For the definition name `session` the reference
`#/definitions/session` yields the empty class name, while the declaration is
named `strings.Title("session") = "Session"`. A name that starts outside the set,
such as `ApiSession`, is kept. -/
theorem convertRefToClassName_trims_name_runes (U : Unicode) :
    convertRefToClassName U (lit "#/definitions/session") = [] ∧
    stringsTitle U (lit "session") = (lit "Session") ∧
    convertRefToClassName U (lit "#/definitions/ApiSession") = (lit "ApiSession") := by
  rw [convertRefToClassName_ascii U _ (by decide), convertRefToClassName_ascii U _ (by decide),
    stringsTitle_ascii U _ (by decide)]
  decide

theorem splitUnderscore_cons_ne (c : Char) (cs : GoString) (hc : c ≠ '_') :
    ∃ w ws, splitUnderscore cs = w :: ws ∧ splitUnderscore (c :: cs) = (c :: w) :: ws := by
  have hne : ∀ l : GoString, splitUnderscore l ≠ [] := by
    intro l
    cases l with
    | nil => simp [splitUnderscore]
    | cons a as =>
      unfold splitUnderscore
      split_ifs
      · simp
      · split <;> simp
  cases h : splitUnderscore cs with
  | nil => exact absurd h (hne cs)
  | cons w ws => exact ⟨w, ws, rfl, by simp [splitUnderscore, hc, h]⟩

theorem no_adjacent_tail (v : Char) (vs : GoString) (h : ¬ lit "__" <:+: v :: vs) :
    ¬ lit "__" <:+: vs :=
  fun e => h (e.trans (List.suffix_cons v vs).isInfix)

theorem no_adjacent_head (vs : GoString) (h : ¬ lit "__" <:+: '_' :: vs) :
    vs.head? ≠ some '_' := by
  intro e
  cases vs with
  | nil => simp at e
  | cons a as =>
    simp at e
    subst e
    exact h (List.IsPrefix.isInfix ⟨as, rfl⟩)

theorem toUpper_ident_ne_underscore (U : Unicode) (v : Char) (hv : isIdentRune v = true)
    (hne : v ≠ '_') : U.toUpper v ≠ '_' := by
  rw [U.toUpper_ascii v (identRune_ascii v hv)]
  exact asciiUpper_ne_underscore v hne

theorem scanTail_segments (U : Unicode) :
    ∀ cs : GoString, ¬ lit "__" <:+: cs →
      scanTail U false cs = tailOfSegments U (splitUnderscore cs) ∧
      (cs.head? ≠ some '_' → scanTail U true cs = pascalOfSegments U (splitUnderscore cs)) := by
  intro cs
  induction cs with
  | nil => intro _; exact ⟨rfl, fun _ => rfl⟩
  | cons v vs ih =>
    intro hadj
    have ih2 := ih (no_adjacent_tail v vs hadj)
    by_cases hv : v = '_'
    · subst hv
      refine ⟨?_, fun h => absurd rfl h⟩
      have h1 := ih2.2 (no_adjacent_head vs hadj)
      simp [scanTail, splitUnderscore, tailOfSegments, h1, pascalOfSegments]
    · obtain ⟨w, ws, e1, e2⟩ := splitUnderscore_cons_ne v vs hv
      have h1 := ih2.1
      rw [e1] at h1
      refine ⟨?_, fun _ => ?_⟩
      · simp [scanTail, hv, e2, tailOfSegments, h1]
      · simp [scanTail, e2, pascalOfSegments, upperFirst, h1, tailOfSegments]

theorem scanTail_underscore_free (U : Unicode) :
    ∀ cs : GoString, IsIdentifier cs → ¬ lit "__" <:+: cs →
      '_' ∉ scanTail U false cs ∧ (cs.head? ≠ some '_' → '_' ∉ scanTail U true cs) := by
  intro cs
  induction cs with
  | nil => intro _ _; exact ⟨by simp [scanTail], fun _ => by simp [scanTail]⟩
  | cons v vs ih =>
    intro hid hadj
    have hvid : isIdentRune v = true := hid v (by simp)
    have ih2 := ih (fun c hc => hid c (by simp [hc])) (no_adjacent_tail v vs hadj)
    by_cases hv : v = '_'
    · subst hv
      refine ⟨?_, fun h => absurd rfl h⟩
      simpa [scanTail] using ih2.2 (no_adjacent_head vs hadj)
    · refine ⟨?_, fun _ => ?_⟩
      · simp only [scanTail, hv, if_false, List.mem_cons, not_or]
        exact ⟨fun e => hv e.symm, ih2.1⟩
      · simp only [scanTail, List.mem_cons, not_or]
        exact ⟨fun e => toUpper_ident_ne_underscore U v hvid hv e.symm, ih2.1⟩

/-- Claim C2, amended: for every identifier `s` that does not start with an
underscore and has no two adjacent underscores, `snakeCaseToPascalCase` and
`snakeCaseToCamelCase` return the segments of `s` joined without the underscores,
the first rune of every segment after an underscore upper-cased (and the very first
rune upper-cased, respectively lower-cased); the results contain no underscore. -/
theorem snake_case_segments_capitalised (U : Unicode) (s : GoString)
    (hid : IsIdentifier s) (hlead : s.head? ≠ some '_') (hadj : ¬ lit "__" <:+: s) :
    snakeCaseToPascalCase U s = .ok (pascalOfSegments U (splitUnderscore s)) ∧
    snakeCaseToCamelCase U s = .ok (camelOfSegments U (splitUnderscore s)) ∧
    '_' ∉ pascalOfSegments U (splitUnderscore s) ∧
    '_' ∉ camelOfSegments U (splitUnderscore s) := by
  cases s with
  | nil =>
    refine ⟨pascal_nil U, camel_nil U, ?_, ?_⟩ <;>
      simp [splitUnderscore, pascalOfSegments, camelOfSegments, upperFirst, lowerFirst]
  | cons c cs =>
    have hcid : isIdentRune c = true := hid c (by simp)
    have hc : c.toNat ≤ 127 := identRune_ascii c hcid
    have hne : c ≠ '_' := by
      intro e; subst e; exact hlead rfl
    have hcs : ¬ lit "__" <:+: cs := no_adjacent_tail c cs hadj
    obtain ⟨w, ws, e1, e2⟩ := splitUnderscore_cons_ne c cs hne
    have hseg := (scanTail_segments U cs hcs).1
    have hfree := (scanTail_underscore_free U cs (fun x hx => hid x (by simp [hx])) hcs).1
    rw [e1] at hseg
    have hp : pascalOfSegments U (splitUnderscore (c :: cs)) = U.toUpper c :: scanTail U false cs := by
      simp [e2, pascalOfSegments, upperFirst, hseg, tailOfSegments]
    have hq : camelOfSegments U (splitUnderscore (c :: cs)) = U.toLower c :: scanTail U false cs := by
      simp [e2, camelOfSegments, lowerFirst, hseg, tailOfSegments]
    have hl : U.toLower c ≠ '_' := by
      rw [U.toLower_ascii c hc]
      revert hne
      exact ascii_forall (P := fun c => c ≠ '_' → asciiLower c ≠ '_') (by decide) c hc
    rw [hp, hq, pascal_cons, camel_cons, ofNat_firstByte c hc]
    refine ⟨rfl, rfl, ?_, ?_⟩
    · simp only [List.mem_cons, not_or]
      exact ⟨fun e => toUpper_ident_ne_underscore U c hcid hne e.symm, hfree⟩
    · simp only [List.mem_cons, not_or]
      exact ⟨fun e => hl e.symm, hfree⟩

/-- The identifier `match_create_request` gives `MatchCreateRequest` and
`matchCreateRequest`. -/
theorem snake_case_segments_capitalised_witness :
    IsIdentifier (lit "match_create_request") ∧
    snakeCaseToPascalCase asciiUnicode (lit "match_create_request") = .ok (lit "MatchCreateRequest") ∧
    snakeCaseToCamelCase asciiUnicode (lit "match_create_request") = .ok (lit "matchCreateRequest") := by
  have h := snake_case_segments_capitalised asciiUnicode (lit "match_create_request")
    (by decide) (by decide) (by decide)
  exact ⟨by decide, h.1.trans (by decide), h.2.1.trans (by decide)⟩

/-- Claim C2 fails as stated: in the identifier `a__b` the second underscore
follows an underscore, so it is "upper-cased" and kept, and in `_ab` the leading
underscore is the first rune, which is kept and does not raise the flag, so `a` is
not upper-cased. The results contain an underscore. -/
theorem snake_case_keeps_underscore :
    IsIdentifier (lit "a__b") ∧
    snakeCaseToPascalCase asciiUnicode (lit "a__b") = .ok (lit "A_b") ∧
    snakeCaseToCamelCase asciiUnicode (lit "a__b") = .ok (lit "a_b") ∧
    '_' ∈ lit "A_b" ∧ '_' ∈ lit "a_b" ∧
    IsIdentifier (lit "_ab") ∧
    snakeCaseToPascalCase asciiUnicode (lit "_ab") = .ok (lit "_ab") ∧
    snakeCaseToCamelCase asciiUnicode (lit "_ab") = .ok (lit "_ab") ∧
    '_' ∈ lit "_ab" := by
  decide

/-! ## The template -/

theorem pascal_ok (U : Unicode) (s : GoString) :
    snakeCaseToPascalCase U s = .ok (pascalName U s) := by
  cases s with
  | nil => exact pascal_nil U
  | cons c cs => exact pascal_cons U c cs

theorem camel_ok (U : Unicode) (s : GoString) :
    snakeCaseToCamelCase U s = .ok (camelName U s) := by
  cases s with
  | nil => exact camel_nil U
  | cons c cs => exact camel_cons U c cs

theorem rangeList_forall2 {α : Type} (body : α → Except GoPanic GoString) :
    ∀ l : List α, (∀ x ∈ l, ∃ b, body x = .ok b) →
      ∃ blocks : List GoString, rangeList body l = .ok blocks.flatten ∧
        List.Forall₂ (fun x b => body x = .ok b) l blocks := by
  intro l
  induction l with
  | nil => intro _; exact ⟨[], rfl, List.Forall₂.nil⟩
  | cons x xs ih =>
    intro h
    obtain ⟨b, hb⟩ := h x (by simp)
    obtain ⟨bs, hbs, hf⟩ := ih (fun y hy => h y (by simp [hy]))
    refine ⟨b :: bs, ?_, List.Forall₂.cons hb hf⟩
    simp [rangeList, hb, hbs, bind, Except.bind, pure, Except.pure]

theorem rangeList_ok {α : Type} (body : α → Except GoPanic GoString) (l : List α)
    (h : ∀ x ∈ l, ∃ b, body x = .ok b) : ∃ out, rangeList body l = .ok out := by
  obtain ⟨blocks, hb, _⟩ := rangeList_forall2 body l h
  exact ⟨_, hb⟩

theorem rangeList_within {α : Type} (body : α → Except GoPanic GoString) :
    ∀ (l : List α) (out : GoString), rangeList body l = .ok out →
      ∀ x ∈ l, ∀ b, body x = .ok b → b <:+: out := by
  intro l
  induction l with
  | nil => intro out _ x hx; simp at hx
  | cons y ys ih =>
    intro out h x hx b hb
    unfold rangeList at h
    cases hy : body y with
    | error e => simp [hy, bind, Except.bind] at h
    | ok a =>
      cases hys : rangeList body ys with
      | error e => simp [hy, hys, bind, Except.bind] at h
      | ok rest =>
        simp [hy, hys, bind, Except.bind, pure, Except.pure] at h
        subst h
        rcases List.mem_cons.mp hx with e | e
        · subst e
          rw [hy] at hb
          cases hb
          exact (List.prefix_append b rest).isInfix
        · exact (ih rest hys x e b hb).trans (List.suffix_append a rest).isInfix

theorem rangeMap_ok {V : Type} (m : GoMap V) (body : GoString → V → Except GoPanic GoString)
    (h : ∀ k v, ∃ b, body k v = .ok b) : ∃ out, rangeMap m body = .ok out :=
  rangeList_ok _ _ (fun x _ => h x.1 x.2)

theorem mem_sortedEntries {V : Type} (m : GoMap V) (kv : GoString × V) :
    kv ∈ m.sortedEntries ↔ kv ∈ m.entries :=
  (List.perm_insertionSort _ m.entries).mem_iff

theorem rangeMap_within {V : Type} (m : GoMap V) (body : GoString → V → Except GoPanic GoString)
    (out : GoString) (h : rangeMap m body = .ok out) (k : GoString) (v : V)
    (hm : (k, v) ∈ m.entries) (b : GoString) (hb : body k v = .ok b) : b <:+: out :=
  rangeList_within _ _ out h (k, v) ((mem_sortedEntries m (k, v)).mpr hm) b hb

theorem interfaceProperty_ok (U : Unicode) (n : GoString) (p : Property) :
    ∃ b, interfaceProperty U n p = .ok b := by
  simp [interfaceProperty, pascal_ok, bind, Except.bind, pure, Except.pure]

theorem classProperty_ok (U : Unicode) (n : GoString) (p : Property) :
    ∃ b, classProperty U n p = .ok b := by
  simp only [classProperty, pascal_ok, camel_ok, bind, Except.bind, pure, Except.pure]
  split_ifs <;> exact ⟨_, rfl⟩

theorem toStringStatement_ok (U : Unicode) (n : GoString) (p : Property) :
    ∃ b, toStringStatement U n p = .ok b := by
  simp only [toStringStatement, pascal_ok, bind, Except.bind, pure, Except.pure]
  split_ifs <;> exact ⟨_, rfl⟩

theorem methodParameter_ok (U : Unicode) (q : Parameter) :
    ∃ b, methodParameter U q = .ok b := by
  simp [methodParameter, camel_ok, bind, Except.bind, pure, Except.pure]

theorem requiredCheck_ok (U : Unicode) (q : Parameter) :
    ∃ b, requiredCheck U q = .ok b := by
  simp [requiredCheck, camel_ok, bind, Except.bind, pure, Except.pure]

theorem pathSubstitution_ok (U : Unicode) (q : Parameter) :
    ∃ b, pathSubstitution U q = .ok b := by
  simp [pathSubstitution, camel_ok, bind, Except.bind, pure, Except.pure]

theorem queryAppend_ok (U : Unicode) (q : Parameter) :
    ∃ b, queryAppend U q = .ok b := by
  simp [queryAppend, camel_ok, bind, Except.bind, pure, Except.pure]

theorem bodyContent_ok (U : Unicode) (q : Parameter) :
    ∃ b, bodyContent U q = .ok b := by
  simp [bodyContent, camel_ok, bind, Except.bind, pure, Except.pure]

theorem credentialParameters_ok (op : Operation) : ∃ b, credentialParameters op = .ok b := by
  unfold credentialParameters
  cases op.Security with
  | nil => exact ⟨_, rfl⟩
  | cons first rest =>
    apply rangeMap_ok
    intro k v
    simp only [pure, Except.pure]
    split_ifs <;> exact ⟨_, rfl⟩

theorem authorizationHeader_ok (op : Operation) : ∃ b, authorizationHeader op = .ok b := by
  unfold authorizationHeader
  cases op.Security with
  | nil => exact ⟨_, rfl⟩
  | cons first rest =>
    apply rangeMap_ok
    intro k v
    simp only [pure, Except.pure]
    split_ifs <;> exact ⟨_, rfl⟩

theorem interfaceDecl_shape (U : Unicode) (classname : GoString) (d : Definition) :
    ∃ accessors, rangeMap d.Properties (interfaceProperty U) = .ok accessors ∧
      interfaceDecl U classname d = .ok (lit "\n\n    /// <summary>\n    /// " ++
        stripNewlines d.Description ++ lit "\n    /// </summary>\n    public interface I" ++
        classname ++ lit "\n    \x7b" ++ accessors ++ lit "\n    \x7d") := by
  obtain ⟨a, ha⟩ := rangeMap_ok d.Properties (interfaceProperty U) (interfaceProperty_ok U)
  exact ⟨a, ha, by simp [interfaceDecl, ha, bind, Except.bind, pure, Except.pure]⟩

theorem classDecl_shape (U : Unicode) (classname : GoString) (d : Definition) :
    ∃ members statements, rangeMap d.Properties (classProperty U) = .ok members ∧
      rangeMap d.Properties (toStringStatement U) = .ok statements ∧
      classDecl U classname d = .ok (lit "\n\n    /// <inheritdoc />\n    internal class " ++
        classname ++ lit " : I" ++ classname ++ lit "\n    \x7b" ++ members ++
        lit "\n\n        public override string ToString()\n        \x7b\n            var output = \"\";" ++
        statements ++ lit "\n            return output;\n        \x7d\n    \x7d") := by
  obtain ⟨a, ha⟩ := rangeMap_ok d.Properties (classProperty U) (classProperty_ok U)
  obtain ⟨b, hb⟩ := rangeMap_ok d.Properties (toStringStatement U) (toStringStatement_ok U)
  exact ⟨a, b, ha, hb, by simp [classDecl, ha, hb, bind, Except.bind, pure, Except.pure]⟩

theorem definitionDecl_shape (U : Unicode) (defname : GoString) (d : Definition) :
    ∃ iface cls, interfaceDecl U (stringsTitle U defname) d = .ok iface ∧
      classDecl U (stringsTitle U defname) d = .ok cls ∧
      definitionDecl U defname d = .ok (iface ++ cls) := by
  obtain ⟨a, _, ha⟩ := interfaceDecl_shape U (stringsTitle U defname) d
  obtain ⟨m, t, _, _, hc⟩ := classDecl_shape U (stringsTitle U defname) d
  exact ⟨_, _, ha, hc, by simp [definitionDecl, ha, hc, bind, Except.bind, pure, Except.pure]⟩

theorem definitionDecl_ok (U : Unicode) (defname : GoString) (d : Definition) :
    ∃ b, definitionDecl U defname d = .ok b := by
  obtain ⟨i, c, _, _, h⟩ := definitionDecl_shape U defname d
  exact ⟨_, h⟩

theorem operationMethod_shape (U : Unicode) (url method : GoString) (op : Operation) :
    ∃ credentials parameters checks substitutions queries header content,
      credentialParameters op = .ok credentials ∧
      rangeList (methodParameter U) op.Parameters = .ok parameters ∧
      rangeList (requiredCheck U) op.Parameters = .ok checks ∧
      rangeList (pathSubstitution U) op.Parameters = .ok substitutions ∧
      rangeList (queryAppend U) op.Parameters = .ok queries ∧
      authorizationHeader op = .ok header ∧
      rangeList (bodyContent U) op.Parameters = .ok content ∧
      operationMethod U url method op = .ok
        (methodSignature U op (pascalName U op.OperationId) ++ credentials ++ parameters ++
          methodBodyOpen ++ checks ++ urlpathDeclaration url ++ substitutions ++ queries ++
          requestDeclaration U method ++ header ++ content ++ dispatchStatements U op) := by
  obtain ⟨c, hc⟩ := credentialParameters_ok op
  obtain ⟨p, hp⟩ := rangeList_ok (methodParameter U) op.Parameters (fun x _ => methodParameter_ok U x)
  obtain ⟨k, hk⟩ := rangeList_ok (requiredCheck U) op.Parameters (fun x _ => requiredCheck_ok U x)
  obtain ⟨s, hs⟩ := rangeList_ok (pathSubstitution U) op.Parameters (fun x _ => pathSubstitution_ok U x)
  obtain ⟨q, hq⟩ := rangeList_ok (queryAppend U) op.Parameters (fun x _ => queryAppend_ok U x)
  obtain ⟨h, hh⟩ := authorizationHeader_ok op
  obtain ⟨b, hb⟩ := rangeList_ok (bodyContent U) op.Parameters (fun x _ => bodyContent_ok U x)
  refine ⟨c, p, k, s, q, h, b, hc, hp, hk, hs, hq, hh, hb, ?_⟩
  simp only [operationMethod, pascal_ok, hc, hp, hk, hs, hq, hh, hb, bind, Except.bind, pure, Except.pure]

theorem operationMethod_ok (U : Unicode) (url method : GoString) (op : Operation) :
    ∃ b, operationMethod U url method op = .ok b := by
  obtain ⟨_, _, _, _, _, _, _, _, _, _, _, _, _, _, h⟩ := operationMethod_shape U url method op
  exact ⟨_, h⟩

theorem codeTemplate_shape (U : Unicode) (s : Schema) :
    ∃ definitions methods, rangeMap s.Definitions (definitionDecl U) = .ok definitions ∧
      rangeMap s.Paths (fun url path =>
        rangeMap path (fun method operation => operationMethod U url method operation))
          = .ok methods ∧
      codeTemplate U s = .ok (fileHeader ++ definitions ++ clientHeader ++ methods ++ fileFooter) := by
  obtain ⟨d, hd⟩ := rangeMap_ok s.Definitions (definitionDecl U) (definitionDecl_ok U)
  obtain ⟨m, hm⟩ := rangeMap_ok s.Paths (fun url path =>
    rangeMap path (fun method operation => operationMethod U url method operation))
    (fun url path => rangeMap_ok path _ (fun method op => operationMethod_ok U url method op))
  exact ⟨d, m, hd, hm, by simp [codeTemplate, hd, hm, bind, Except.bind, pure, Except.pure]⟩

theorem infix_append_right {x y : GoString} (h : x <:+: y) (z : GoString) : x <:+: y ++ z :=
  h.trans (List.prefix_append y z).isInfix

theorem infix_append_left {x y : GoString} (h : x <:+: y) (z : GoString) : x <:+: z ++ y :=
  h.trans (List.suffix_append z y).isInfix

theorem definitionDecl_within (U : Unicode) (s : Schema) (out : GoString)
    (h : codeTemplate U s = .ok out) (defname : GoString) (d : Definition)
    (hd : (defname, d) ∈ s.Definitions.entries) (txt : GoString)
    (ht : definitionDecl U defname d = .ok txt) : txt <:+: out := by
  obtain ⟨defs, methods, h1, _, h3⟩ := codeTemplate_shape U s
  rw [h3] at h
  cases h
  have := rangeMap_within s.Definitions (definitionDecl U) defs h1 defname d hd txt ht
  repeat (first | exact this.trans (List.suffix_append _ _).isInfix | apply infix_append_right)

theorem interfaceProperty_within (U : Unicode) (s : Schema) (out : GoString)
    (h : codeTemplate U s = .ok out) (defname : GoString) (d : Definition)
    (hd : (defname, d) ∈ s.Definitions.entries) (propname : GoString) (p : Property)
    (hp : (propname, p) ∈ d.Properties.entries) (blk : GoString)
    (hb : interfaceProperty U propname p = .ok blk) : blk <:+: out := by
  obtain ⟨iface, cls, h1, _, h3⟩ := definitionDecl_shape U defname d
  obtain ⟨acc, h4, h5⟩ := interfaceDecl_shape U (stringsTitle U defname) d
  rw [h5] at h1
  cases h1
  have hacc := rangeMap_within d.Properties (interfaceProperty U) acc h4 propname p hp blk hb
  refine List.IsInfix.trans ?_ (definitionDecl_within U s out h defname d hd _ h3)
  repeat (first | exact hacc.trans (List.suffix_append _ _).isInfix | apply infix_append_right)

theorem classProperty_within (U : Unicode) (s : Schema) (out : GoString)
    (h : codeTemplate U s = .ok out) (defname : GoString) (d : Definition)
    (hd : (defname, d) ∈ s.Definitions.entries) (propname : GoString) (p : Property)
    (hp : (propname, p) ∈ d.Properties.entries) (blk : GoString)
    (hb : classProperty U propname p = .ok blk) : blk <:+: out := by
  obtain ⟨iface, cls, _, h2, h3⟩ := definitionDecl_shape U defname d
  obtain ⟨mem, st, h4, _, h5⟩ := classDecl_shape U (stringsTitle U defname) d
  rw [h5] at h2
  cases h2
  have hacc := rangeMap_within d.Properties (classProperty U) mem h4 propname p hp blk hb
  refine List.IsInfix.trans ?_ (definitionDecl_within U s out h defname d hd _ h3)
  apply infix_append_left
  repeat (first | exact hacc.trans (List.suffix_append _ _).isInfix | apply infix_append_right)

theorem operationMethod_within (U : Unicode) (s : Schema) (out : GoString)
    (h : codeTemplate U s = .ok out) (url : GoString) (path : GoMap Operation)
    (hu : (url, path) ∈ s.Paths.entries) (method : GoString) (op : Operation)
    (hm : (method, op) ∈ path.entries) (txt : GoString)
    (ht : operationMethod U url method op = .ok txt) : txt <:+: out := by
  obtain ⟨defs, methods, _, h2, h3⟩ := codeTemplate_shape U s
  rw [h3] at h
  cases h
  obtain ⟨ptxt, hptxt⟩ := rangeMap_ok path (fun method operation => operationMethod U url method operation)
    (fun m o => operationMethod_ok U url m o)
  have i1 := rangeMap_within path _ ptxt hptxt method op hm txt ht
  have i2 := rangeMap_within s.Paths _ methods h2 url path hu ptxt hptxt
  have := i1.trans i2
  repeat (first | exact this.trans (List.suffix_append _ _).isInfix | apply infix_append_right)


theorem methodParameter_within (U : Unicode) (s : Schema) (out : GoString)
    (h : codeTemplate U s = .ok out) (url : GoString) (path : GoMap Operation)
    (hu : (url, path) ∈ s.Paths.entries) (method : GoString) (op : Operation)
    (hm : (method, op) ∈ path.entries) (q : Parameter) (hq : q ∈ op.Parameters)
    (blk : GoString) (hb : methodParameter U q = .ok blk) : blk <:+: out := by
  obtain ⟨c, p, k, sb, qs, hd, b, _, hp, _, _, _, _, _, hop⟩ := operationMethod_shape U url method op
  have i1 := rangeList_within (methodParameter U) op.Parameters p hp q hq blk hb
  refine List.IsInfix.trans (i1.trans ?_)
    (operationMethod_within U s out h url path hu method op hm _ hop)
  exact ⟨methodSignature U op (pascalName U op.OperationId) ++ c,
    methodBodyOpen ++ k ++ urlpathDeclaration url ++ sb ++ qs ++ requestDeclaration U method ++
      hd ++ b ++ dispatchStatements U op, by simp only [List.append_assoc]⟩

theorem queryAppend_within (U : Unicode) (s : Schema) (out : GoString)
    (h : codeTemplate U s = .ok out) (url : GoString) (path : GoMap Operation)
    (hu : (url, path) ∈ s.Paths.entries) (method : GoString) (op : Operation)
    (hm : (method, op) ∈ path.entries) (q : Parameter) (hq : q ∈ op.Parameters)
    (blk : GoString) (hb : queryAppend U q = .ok blk) : blk <:+: out := by
  obtain ⟨c, p, k, sb, qs, hd, b, _, _, _, _, hqs, _, _, hop⟩ := operationMethod_shape U url method op
  have i1 := rangeList_within (queryAppend U) op.Parameters qs hqs q hq blk hb
  refine List.IsInfix.trans (i1.trans ?_)
    (operationMethod_within U s out h url path hu method op hm _ hop)
  exact ⟨methodSignature U op (pascalName U op.OperationId) ++ c ++ p ++ methodBodyOpen ++ k ++
      urlpathDeclaration url ++ sb,
    requestDeclaration U method ++ hd ++ b ++ dispatchStatements U op,
    by simp only [List.append_assoc]⟩

theorem interfaceProperty_reference_branch (U : Unicode) (n : GoString) (p : Property)
    (h1 : p.Type_ ≠ lit "integer") (h2 : p.Type_ ≠ lit "boolean") (h3 : p.Type_ ≠ lit "string")
    (h4 : p.Type_ ≠ lit "array") :
    interfaceProperty U n p = .ok (lit "\n\n        /// <summary>\n        /// " ++ p.Description ++
      lit "\n        /// </summary>" ++ (lit "\n        I" ++ convertRefToClassName U p.Ref ++
      lit " " ++ pascalName U n ++ lit " \x7b get; \x7d")) := by
  simp only [interfaceProperty, pascal_ok, bind, Except.bind, pure, Except.pure, h1, h2, h3, h4,
    if_false]

theorem interfaceProperty_array_reference_branch (U : Unicode) (n : GoString) (p : Property)
    (h0 : p.Type_ = lit "array")
    (h1 : p.Items.Type_ ≠ lit "string") (h2 : p.Items.Type_ ≠ lit "integer")
    (h3 : p.Items.Type_ ≠ lit "boolean") :
    interfaceProperty U n p = .ok (lit "\n\n        /// <summary>\n        /// " ++ p.Description ++
      lit "\n        /// </summary>" ++ (lit "\n        IEnumerable<I" ++
      convertRefToClassName U p.Items.Ref ++ lit "> " ++ pascalName U n ++ lit " \x7b get; \x7d")) := by
  have e1 : p.Type_ ≠ lit "integer" := by rw [h0]; decide
  have e2 : p.Type_ ≠ lit "boolean" := by rw [h0]; decide
  have e3 : p.Type_ ≠ lit "string" := by rw [h0]; decide
  simp only [interfaceProperty, pascal_ok, bind, Except.bind, pure, Except.pure, h1, h2, h3, e1, e2, e3,
    if_false]
  simp only [h0, if_true]

theorem methodParameter_body_reference (U : Unicode) (q : Parameter)
    (h0 : q.In = lit "body") (h1 : q.Schema.Type_ ≠ lit "string") :
    methodParameter U q = .ok (lit "\n            , " ++ convertRefToClassName U q.Schema.Ref ++
      (if !q.Required then lit "?" else []) ++ lit " " ++ camelName U q.Name) := by
  have e1 : q.In ≠ lit "path" := by rw [h0]; decide
  simp only [methodParameter, camel_ok, bind, Except.bind, pure, Except.pure, e1, h1, if_false]
  simp only [h0, if_true]

/-- Claim C3, amended: the template resolves no reference. For every schema, also
one in which a property, an array item, a body parameter or a response refers to a
definition that `definitions` does not hold, `codeTemplate` does not fail and
writes the whole text, from the fixed header to the closing braces; in it the
reference stands unresolved, as the type name `convertRefToClassName` makes of it:
`I<name> <Field> { get; }` for a property, `IEnumerable<I<name>> <Field> { get; }`
for an array item, `Task<I<name>>` for a response and `<name> <parameter>` for a
body parameter. -/
theorem unresolved_references_are_emitted (U : Unicode) (s : Schema) :
    ∃ out, codeTemplate U s = .ok out ∧ fileHeader <+: out ∧ fileFooter <:+ out ∧
      (∀ defname d propname p fieldname, (defname, d) ∈ s.Definitions.entries →
        (propname, p) ∈ d.Properties.entries → snakeCaseToPascalCase U propname = .ok fieldname →
        (p.Type_ = [] →
          (lit "\n        I" ++ convertRefToClassName U p.Ref ++ lit " " ++ fieldname ++
            lit " \x7b get; \x7d") <:+: out) ∧
        (p.Type_ = lit "array" → p.Items.Type_ = [] →
          (lit "\n        IEnumerable<I" ++ convertRefToClassName U p.Items.Ref ++ lit "> " ++
            fieldname ++ lit " \x7b get; \x7d") <:+: out)) ∧
      (∀ url path method op, (url, path) ∈ s.Paths.entries → (method, op) ∈ path.entries →
        (∀ methodname, snakeCaseToPascalCase U op.OperationId = .ok methodname →
          (lit "\n        public async Task<I" ++ convertRefToClassName U op.ResponsesOkSchemaRef ++
            lit "> " ++ methodname ++ lit "Async(") <:+: out) ∧
        (∀ q camelname, q ∈ op.Parameters → q.In = lit "body" → q.Schema.Type_ = [] →
          snakeCaseToCamelCase U q.Name = .ok camelname →
          (lit "\n            , " ++ convertRefToClassName U q.Schema.Ref ++
            (if !q.Required then lit "?" else []) ++ lit " " ++ camelname) <:+: out)) := by
  obtain ⟨defs, methods, h1, h2, h3⟩ := codeTemplate_shape U s
  refine ⟨_, h3, ?_, ?_, ?_, ?_⟩
  · exact ⟨defs ++ clientHeader ++ methods ++ fileFooter, by simp only [List.append_assoc]⟩
  · exact List.suffix_append _ _
  · intro defname d propname p fieldname hd hp hf
    rw [pascal_ok] at hf
    cases hf
    constructor
    · intro ht
      have hb := interfaceProperty_reference_branch U propname p (by rw [ht]; decide)
        (by rw [ht]; decide) (by rw [ht]; decide) (by rw [ht]; decide)
      exact (List.suffix_append _ _).isInfix.trans
        (interfaceProperty_within U s _ h3 defname d hd propname p hp _ hb)
    · intro ht hi
      have hb := interfaceProperty_array_reference_branch U propname p ht (by rw [hi]; decide)
        (by rw [hi]; decide) (by rw [hi]; decide)
      exact (List.suffix_append _ _).isInfix.trans
        (interfaceProperty_within U s _ h3 defname d hd propname p hp _ hb)
  · intro url path method op hu hm
    constructor
    · intro methodname hn
      rw [pascal_ok] at hn
      cases hn
      obtain ⟨c, p, k, sb, qs, hd, b, _, _, _, _, _, _, _, hop⟩ := operationMethod_shape U url method op
      refine List.IsInfix.trans ?_ (operationMethod_within U s _ h3 url path hu method op hm _ hop)
      have e : lit "\n        /// </summary>\n        public async Task<I" =
          lit "\n        /// </summary>" ++ lit "\n        public async Task<I" := by decide
      unfold methodSignature
      rw [e]
      exact ⟨lit "\n\n        /// <summary>\n        /// " ++ stripNewlines op.Summary ++
        lit "\n        /// </summary>",
        c ++ p ++ methodBodyOpen ++ k ++ urlpathDeclaration url ++ sb ++ qs ++
          requestDeclaration U method ++ hd ++ b ++ dispatchStatements U op,
        by simp only [List.append_assoc]⟩
    · intro q camelname hq hin hty hc
      rw [camel_ok] at hc
      cases hc
      have hb := methodParameter_body_reference U q hin (by rw [hty]; decide)
      exact methodParameter_within U s _ h3 url path hu method op hm q hq _ hb


/-- Claim C3 fails as stated: in `danglingSchema` the property `friend` refers to
`#/definitions/apiMissing` and `apiMissing` is no key of `definitions`, yet the
execution returns no error and writes the declarations, with the accessor
`IApiMissing Friend { get; }`. -/
theorem dangling_reference_generates :
    danglingProperty.Ref = lit "#/definitions/" ++ lit "apiMissing" ∧
    lit "apiMissing" ∉ danglingSchema.Definitions.entries.map Prod.fst ∧
    codeTemplate asciiUnicode danglingSchema =
      .ok (fileHeader ++ danglingDeclarations ++ clientHeader ++ fileFooter) := by
  refine ⟨by decide, by decide, ?_⟩
  decide!

/-- Claim C4 fails as stated: in `numberSchema` the property `wallet` has the type
`number`, which the table does not hold, and no `$ref`, yet the execution returns
no error and writes the declarations, with the accessor `I Wallet { get; }`. -/
theorem number_property_generates :
    numberProperty.Type_ = lit "number" ∧ numberProperty.Ref = [] ∧
    codeTemplate asciiUnicode numberSchema =
      .ok (fileHeader ++ numberDeclarations ++ clientHeader ++ fileFooter) := by
  refine ⟨by decide, by decide, ?_⟩
  decide!

theorem methodParameter_other_type (U : Unicode) (q : Parameter)
    (h0 : q.In = lit "query") (h1 : q.Type_ ≠ lit "array") (h2 : q.Type_ ≠ lit "integer")
    (h3 : q.Type_ ≠ lit "boolean") :
    methodParameter U q = .ok (lit "\n            , " ++ q.Type_ ++ lit " " ++ camelName U q.Name) := by
  have e1 : q.In ≠ lit "path" := by rw [h0]; decide
  have e2 : q.In ≠ lit "body" := by rw [h0]; decide
  simp only [methodParameter, camel_ok, bind, Except.bind, pure, Except.pure, e1, e2, h1, h2, h3,
    if_false]

theorem queryAppend_other_type (U : Unicode) (q : Parameter)
    (h0 : q.In = lit "query") (h1 : q.Type_ ≠ lit "integer") (h2 : q.Type_ ≠ lit "string")
    (h3 : q.Type_ ≠ lit "boolean") (h4 : q.Type_ ≠ lit "array") :
    queryAppend U q = .ok (lit "\n            " ++ printParameter q ++ lit " // ERROR") := by
  simp only [queryAppend, camel_ok, bind, Except.bind, pure, Except.pure, h1, h2, h3, h4, if_false]
  simp only [h0, if_true]

/-- Claim C4, amended: the template has no error for a type outside the table.
For every schema `codeTemplate` does not fail, and in the text it writes a property
whose type is none of `integer`, `boolean`, `string`, `array` is declared through
the reference branch, as `I<convertRefToClassName($ref)> <Field> { get; }`, while a
query parameter whose type is none of `integer`, `string`, `boolean`, `array` is
declared with the schema's type name as it stands and gets, in place of the
statement that appends it to the URL, its printed value followed by `// ERROR`. -/
theorem unsupported_types_are_emitted (U : Unicode) (s : Schema) :
    ∃ out, codeTemplate U s = .ok out ∧
      (∀ defname d propname p fieldname, (defname, d) ∈ s.Definitions.entries →
        (propname, p) ∈ d.Properties.entries → snakeCaseToPascalCase U propname = .ok fieldname →
        p.Type_ ≠ lit "integer" → p.Type_ ≠ lit "boolean" → p.Type_ ≠ lit "string" →
        p.Type_ ≠ lit "array" →
        (lit "\n        I" ++ convertRefToClassName U p.Ref ++ lit " " ++ fieldname ++
          lit " \x7b get; \x7d") <:+: out) ∧
      (∀ url path method op q camelname, (url, path) ∈ s.Paths.entries →
        (method, op) ∈ path.entries → q ∈ op.Parameters →
        snakeCaseToCamelCase U q.Name = .ok camelname → q.In = lit "query" →
        q.Type_ ≠ lit "integer" → q.Type_ ≠ lit "string" → q.Type_ ≠ lit "boolean" →
        q.Type_ ≠ lit "array" →
        (lit "\n            , " ++ q.Type_ ++ lit " " ++ camelname) <:+: out ∧
        (lit "\n            " ++ printParameter q ++ lit " // ERROR") <:+: out) := by
  obtain ⟨defs, methods, h1, h2, h3⟩ := codeTemplate_shape U s
  refine ⟨_, h3, ?_, ?_⟩
  · intro defname d propname p fieldname hd hp hf t1 t2 t3 t4
    rw [pascal_ok] at hf
    cases hf
    have hb := interfaceProperty_reference_branch U propname p t1 t2 t3 t4
    exact (List.suffix_append _ _).isInfix.trans
      (interfaceProperty_within U s _ h3 defname d hd propname p hp _ hb)
  · intro url path method op q camelname hu hm hq hc hin t1 t2 t3 t4
    rw [camel_ok] at hc
    cases hc
    exact ⟨methodParameter_within U s _ h3 url path hu method op hm q hq _
        (methodParameter_other_type U q hin t4 t1 t3),
      queryAppend_within U s _ h3 url path hu method op hm q hq _
        (queryAppend_other_type U q hin t1 t2 t3 t4)⟩

theorem interfaceProperty_table (U : Unicode) (n : GoString) (p : Property) (blk : GoString)
    (h : interfaceProperty U n p = .ok blk) (t : PropertyType) (ht : p.kind = some t) :
    blk = lit "\n\n        /// <summary>\n        /// " ++ p.Description ++
      lit "\n        /// </summary>\n        " ++ t.accessorType U ++ lit " " ++
      pascalName U n ++ lit " \x7b get; \x7d" := by
  simp only [interfaceProperty, pascal_ok, bind, Except.bind, pure, Except.pure, Except.ok.injEq] at h
  subst h
  unfold Property.kind at ht
  split_ifs at ht with h1 h2 h3 h4 h5 h6 h7 h8 h9 <;>
    simp only [Option.some.injEq, reduceCtorEq] at ht <;> subst ht <;>
    simp [PropertyType.accessorType, *]

/-- Claim C9: the interface that `interfaceDecl` writes holds, between its head and
its closing brace, one block per property of the definition, in the order of
`range`; the block of a property is its summary comment followed by the single
accessor `<type> <Field> { get; }`, where `<Field>` is `snakeCaseToPascalCase` of
the property name and `<type>` follows the fixed table. The integer `create_time`
and the array-of-string `labels` give `int CreateTime { get; }` and
`List<string> Labels { get; }`. -/
theorem interface_declares_one_accessor_per_property (U : Unicode) (classname : GoString)
    (definition : Definition) :
    (∃ blocks : List GoString,
      interfaceDecl U classname definition = .ok (lit "\n\n    /// <summary>\n    /// " ++
        stripNewlines definition.Description ++
        lit "\n    /// </summary>\n    public interface I" ++ classname ++ lit "\n    \x7b" ++
        blocks.flatten ++ lit "\n    \x7d") ∧
      definition.Properties.sortedEntries.Perm definition.Properties.entries ∧
      List.Forall₂ (fun (kv : GoString × Property) (blk : GoString) =>
          ∃ fieldname, snakeCaseToPascalCase U kv.1 = .ok fieldname ∧
            ∀ t, kv.2.kind = some t →
              blk = lit "\n\n        /// <summary>\n        /// " ++ kv.2.Description ++
                lit "\n        /// </summary>\n        " ++ t.accessorType U ++ lit " " ++
                fieldname ++ lit " \x7b get; \x7d")
        definition.Properties.sortedEntries blocks) ∧
    interfaceDecl asciiUnicode (lit "Session") sessionDefinition =
      .ok (lit ("\n\n    /// <summary>\n    /// A session.\n    /// </summary>" ++
        "\n    public interface ISession\n    \x7b" ++
        "\n\n        /// <summary>\n        /// The creation time.\n        /// </summary>" ++
        "\n        int CreateTime \x7b get; \x7d" ++
        "\n\n        /// <summary>\n        /// The labels.\n        /// </summary>" ++
        "\n        List<string> Labels \x7b get; \x7d\n    \x7d")) := by
  refine ⟨?_, by decide!⟩
  obtain ⟨blocks, hb, hf⟩ := rangeList_forall2
    (fun kv : GoString × Property => interfaceProperty U kv.1 kv.2)
    definition.Properties.sortedEntries (fun x _ => interfaceProperty_ok U x.1 x.2)
  refine ⟨blocks, ?_, List.perm_insertionSort _ _, ?_⟩
  · obtain ⟨acc, h1, h2⟩ := interfaceDecl_shape U classname definition
    have : acc = blocks.flatten := by
      have h3 : rangeMap definition.Properties (interfaceProperty U) = .ok blocks.flatten := hb
      rw [h1] at h3
      cases h3
      rfl
    rw [← this]
    exact h2
  · refine hf.imp ?_
    intro kv blk hblk
    exact ⟨pascalName U kv.1, pascal_ok U kv.1, fun t ht =>
      interfaceProperty_table U kv.1 kv.2 blk hblk t ht⟩

theorem count_skip (p : GoString) (a t : GoString) (h : '[' ∉ a) :
    countOccurrences ('[' :: p) (a ++ t) = countOccurrences ('[' :: p) t := by
  induction a with
  | nil => rfl
  | cons c cs ih =>
    have hc : c ≠ '[' := fun e => h (by simp [e])
    have hcs : '[' ∉ cs := fun e => h (by simp [e])
    have hpre : ¬ ('[' :: p <+: c :: (cs ++ t)) := by
      rw [List.cons_prefix_cons]
      exact fun e => hc e.1.symm
    rw [List.cons_append, countOccurrences, if_neg hpre, Nat.zero_add]
    exact ih hcs

theorem count_bracket_free (p : GoString) (a : GoString) (h : '[' ∉ a) :
    countOccurrences ('[' :: p) a = 0 := by
  have := count_skip p a [] h
  simpa [countOccurrences] using this

theorem count_bracket_other (d : Char) (p : GoString) (c : Char) (t : GoString) (h : c ≠ d) :
    countOccurrences ('[' :: d :: p) ('[' :: c :: t) = countOccurrences ('[' :: d :: p) (c :: t) := by
  have hpre : ¬ ('[' :: d :: p <+: '[' :: c :: t) := by
    rw [List.cons_prefix_cons, List.cons_prefix_cons]
    exact fun e => h e.2.1.symm
  rw [countOccurrences, if_neg hpre, Nat.zero_add]

theorem quoted_prefix_iff (c2 : GoString) :
    ∀ (n m t : GoString), '"' ∉ n → '"' ∉ m →
      (n ++ '"' :: c2 <+: m ++ ('"' :: c2 ++ t) ↔ n = m) := by
  intro n
  induction n with
  | nil =>
    intro m t _ hm
    cases m with
    | nil => simp
    | cons c m2 =>
      have hc : c ≠ '"' := fun e => hm (by simp [e])
      simp only [List.nil_append, List.cons_append, List.cons_prefix_cons]
      constructor
      · intro e; exact absurd e.1.symm hc
      · intro e; cases e
  | cons a n2 ih =>
    intro m t hn hm
    have ha : a ≠ '"' := fun e => hn (by simp [e])
    have hn2 : '"' ∉ n2 := fun e => hn (by simp [e])
    cases m with
    | nil =>
      simp only [List.nil_append, List.cons_append, List.cons_prefix_cons]
      constructor
      · intro e; exact absurd e.1 ha
      · intro e; cases e
    | cons c m2 =>
      have hm2 : '"' ∉ m2 := fun e => hm (by simp [e])
      simp only [List.cons_append, List.cons_prefix_cons, List.cons.injEq]
      rw [← ih m2 t hn2 hm2]
      simp

theorem dataMember_eq (n : GoString) :
    dataMember n = lit "\n        " ++ ('[' :: (lit "DataMember(Name=\"" ++ n ++ lit "\")]")) := by
  unfold dataMember
  rfl

theorem count_dataMember (n m t : GoString) (hn : '"' ∉ n) (hm : '"' ∉ m) (hb : '[' ∉ m) :
    countOccurrences (lit "[DataMember(Name=\"" ++ n ++ lit "\")]")
        (dataMember m ++ t) =
      (if n = m then 1 else 0) +
        countOccurrences (lit "[DataMember(Name=\"" ++ n ++ lit "\")]") t := by
  have e1 : lit "[DataMember(Name=\"" ++ n ++ lit "\")]" =
      '[' :: (lit "DataMember(Name=\"" ++ n ++ lit "\")]") := rfl
  have e2 : dataMember m ++ t = lit "\n        " ++
      ('[' :: (lit "DataMember(Name=\"" ++ m ++ lit "\")]" ++ t)) := by
    rw [dataMember_eq]; simp
  rw [e2, e1, count_skip _ (lit "\n        ") _ (by decide), countOccurrences]
  have hrest : countOccurrences ('[' :: (lit "DataMember(Name=\"" ++ n ++ lit "\")]"))
      (lit "DataMember(Name=\"" ++ m ++ lit "\")]" ++ t) =
      countOccurrences ('[' :: (lit "DataMember(Name=\"" ++ n ++ lit "\")]")) t := by
    apply count_skip
    simp only [List.mem_append, not_or]
    exact ⟨⟨by decide, hb⟩, by decide⟩
  rw [hrest]
  have hiff : ('[' :: (lit "DataMember(Name=\"" ++ n ++ lit "\")]") <+:
      '[' :: (lit "DataMember(Name=\"" ++ m ++ lit "\")]" ++ t)) ↔ n = m := by
    rw [List.cons_prefix_cons]
    simp only [true_and, List.append_assoc]
    rw [List.prefix_append_right_inj]
    exact quoted_prefix_iff (lit ")]") n m t hn hm
  by_cases h : n = m
  · rw [if_pos (hiff.mpr h), if_pos h]
  · rw [if_neg (fun e => h (hiff.mp e)), if_neg h]


theorem identRune_facts (c : Char) (h : isIdentRune c = true) :
    c ≠ '[' ∧ c ≠ '"' ∧ asciiUpper c ≠ '[' ∧ asciiLower c ≠ '[' := by
  have hc := identRune_ascii c h
  revert h
  exact ascii_forall (P := fun c => isIdentRune c = true →
    c ≠ '[' ∧ c ≠ '"' ∧ asciiUpper c ≠ '[' ∧ asciiLower c ≠ '[') (by decide) c hc

theorem identifier_no_bracket (n : GoString) (h : IsIdentifier n) : '[' ∉ n :=
  fun e => (identRune_facts _ (h _ e)).1 rfl

theorem identifier_no_quote (n : GoString) (h : IsIdentifier n) : '"' ∉ n :=
  fun e => (identRune_facts _ (h _ e)).2.1 rfl

theorem scanTail_no_bracket (U : Unicode) :
    ∀ (cs : GoString) (f : Bool), IsIdentifier cs → '[' ∉ scanTail U f cs := by
  intro cs
  induction cs with
  | nil => intro f _; cases f <;> simp [scanTail]
  | cons v vs ih =>
    intro f hid
    have hv := hid v (by simp)
    have hvs : IsIdentifier vs := fun c hc => hid c (by simp [hc])
    have fv := identRune_facts v hv
    have hup : U.toUpper v ≠ '[' := by
      rw [U.toUpper_ascii v (identRune_ascii v hv)]; exact fv.2.2.1
    cases f with
    | true =>
      simp only [scanTail, List.mem_cons, not_or]
      exact ⟨fun e => hup e.symm, ih false hvs⟩
    | false =>
      by_cases e : v = '_'
      · simp only [scanTail, e, if_true]
        exact ih true hvs
      · simp only [scanTail, e, if_false, List.mem_cons, not_or]
        exact ⟨fun e2 => fv.1 e2.symm, ih false hvs⟩

theorem pascalName_no_bracket (U : Unicode) (n : GoString) (h : IsIdentifier n) :
    '[' ∉ pascalName U n := by
  cases n with
  | nil => simp [pascalName]
  | cons c cs =>
    have hc := h c (by simp)
    have ha := identRune_ascii c hc
    simp only [pascalName, ofNat_firstByte c ha, List.mem_cons, not_or]
    refine ⟨?_, scanTail_no_bracket U cs false (fun x hx => h x (by simp [hx]))⟩
    rw [U.toUpper_ascii c ha]
    exact fun e => (identRune_facts c hc).2.2.1 e.symm

theorem camelName_no_bracket (U : Unicode) (n : GoString) (h : IsIdentifier n) :
    '[' ∉ camelName U n := by
  cases n with
  | nil => simp [camelName]
  | cons c cs =>
    have hc := h c (by simp)
    have ha := identRune_ascii c hc
    simp only [camelName, ofNat_firstByte c ha, List.mem_cons, not_or]
    refine ⟨?_, scanTail_no_bracket U cs false (fun x hx => h x (by simp [hx]))⟩
    rw [U.toLower_ascii c ha]
    exact fun e => (identRune_facts c hc).2.2.2 e.symm

theorem toTitle_ne_bracket (U : Unicode) (c : Char) (h : c ≠ '[') : U.toTitle c ≠ '[' := by
  intro e
  rcases U.toTitle_changed c with e1 | e1 | e1
  · rw [e1] at e; exact h e
  · rw [e] at e1; revert e1; decide
  · rw [e] at e1; revert e1; decide

theorem titleFrom_no_bracket (U : Unicode) :
    ∀ (s : GoString) (prev : Char), '[' ∉ s → '[' ∉ titleFrom U prev s := by
  intro s
  induction s with
  | nil => intro _ _; simp [titleFrom]
  | cons r rs ih =>
    intro prev h
    have hr : r ≠ '[' := fun e => h (by simp [e])
    have hrs : '[' ∉ rs := fun e => h (by simp [e])
    simp only [titleFrom, List.mem_cons, not_or]
    refine ⟨?_, ih r hrs⟩
    split_ifs
    · exact fun e => toTitle_ne_bracket U r hr e.symm
    · exact fun e => hr e.symm

theorem convertRef_no_bracket (U : Unicode) (r : GoString) (h : '[' ∉ r) :
    '[' ∉ convertRefToClassName U r := by
  unfold convertRefToClassName stringsTitle
  exact titleFrom_no_bracket U _ ' ' (fun e => h (trimLeft_subset _ r _ e))

theorem classProperty_form (U : Unicode) (n : GoString) (p : Property) :
    ∃ pre post, classProperty U n p = .ok (pre ++ dataMember n ++ post) ∧
      (IsIdentifier n → '[' ∉ p.Ref → '[' ∉ p.Items.Ref → '[' ∉ pre ∧ '[' ∉ post) := by
  have b1 := pascalName_no_bracket U n
  have b2 := camelName_no_bracket U n
  have b3 := convertRef_no_bracket U p.Ref
  have b4 := convertRef_no_bracket U p.Items.Ref
  simp only [classProperty, pascal_ok, camel_ok, bind, Except.bind, pure, Except.pure]
  split_ifs
  · refine ⟨lit "\n\n        /// <inheritdoc />", lit "\n        public int " ++ pascalName U n ++
      lit " \x7b get; set; \x7d", by simp only [List.append_assoc], fun hn _ _ => ⟨by decide, ?_⟩⟩
    simp only [List.mem_append, not_or]
    exact ⟨⟨by decide, b1 hn⟩, by decide⟩
  · refine ⟨lit "\n\n        /// <inheritdoc />", lit "\n        public bool " ++ pascalName U n ++
      lit " \x7b get; set; \x7d", by simp only [List.append_assoc], fun hn _ _ => ⟨by decide, ?_⟩⟩
    simp only [List.mem_append, not_or]
    exact ⟨⟨by decide, b1 hn⟩, by decide⟩
  · refine ⟨lit "\n\n        /// <inheritdoc />", lit "\n        public string " ++ pascalName U n ++
      lit " \x7b get; set; \x7d", by simp only [List.append_assoc], fun hn _ _ => ⟨by decide, ?_⟩⟩
    simp only [List.mem_append, not_or]
    exact ⟨⟨by decide, b1 hn⟩, by decide⟩
  · refine ⟨lit "\n\n        /// <inheritdoc />", lit "\n        public List<string> " ++
      pascalName U n ++ lit " \x7b get; set; \x7d", by simp only [List.append_assoc],
      fun hn _ _ => ⟨by decide, ?_⟩⟩
    simp only [List.mem_append, not_or]
    exact ⟨⟨by decide, b1 hn⟩, by decide⟩
  · refine ⟨lit "\n\n        /// <inheritdoc />", lit "\n        public List<int> " ++
      pascalName U n ++ lit " \x7b get; set; \x7d", by simp only [List.append_assoc],
      fun hn _ _ => ⟨by decide, ?_⟩⟩
    simp only [List.mem_append, not_or]
    exact ⟨⟨by decide, b1 hn⟩, by decide⟩
  · refine ⟨lit "\n\n        /// <inheritdoc />", lit "\n        public List<bool> " ++
      pascalName U n ++ lit " \x7b get; set; \x7d", by simp only [List.append_assoc],
      fun hn _ _ => ⟨by decide, ?_⟩⟩
    simp only [List.mem_append, not_or]
    exact ⟨⟨by decide, b1 hn⟩, by decide⟩
  · refine ⟨lit "\n\n        /// <inheritdoc />" ++ (lit "\n        public IEnumerable<I" ++
        convertRefToClassName U p.Items.Ref ++ lit "> " ++ pascalName U n ++ lit " => _" ++
        camelName U n ++ lit " ?? new List<" ++ convertRefToClassName U p.Items.Ref ++
        lit ">(0);"),
      lit "\n        public List<" ++ convertRefToClassName U p.Items.Ref ++ lit "> _" ++
        camelName U n ++ lit " \x7b get; set; \x7d", by simp only [List.append_assoc],
      fun hn _ hi => ⟨?_, ?_⟩⟩
    · simp only [List.mem_append, not_or]
      exact ⟨by decide, ⟨⟨⟨⟨⟨⟨⟨by decide, b4 hi⟩, by decide⟩, b1 hn⟩, by decide⟩, b2 hn⟩,
        by decide⟩, b4 hi⟩, by decide⟩
    · simp only [List.mem_append, not_or]
      exact ⟨⟨⟨⟨by decide, b4 hi⟩, by decide⟩, b2 hn⟩, by decide⟩
  · refine ⟨lit "\n\n        /// <inheritdoc />" ++ (lit "\n        public I" ++
        convertRefToClassName U p.Ref ++ lit " " ++ pascalName U n ++ lit " => _" ++
        camelName U n ++ lit ";"),
      lit "\n        public " ++ convertRefToClassName U p.Ref ++ lit " _" ++
        camelName U n ++ lit " \x7b get; set; \x7d", by simp only [List.append_assoc],
      fun hn hr _ => ⟨?_, ?_⟩⟩
    · simp only [List.mem_append, not_or]
      exact ⟨by decide, ⟨⟨⟨⟨⟨by decide, b3 hr⟩, by decide⟩, b1 hn⟩, by decide⟩, b2 hn⟩,
        by decide⟩
    · simp only [List.mem_append, not_or]
      exact ⟨⟨⟨⟨by decide, b3 hr⟩, by decide⟩, b2 hn⟩, by decide⟩

theorem toStringStatement_count (U : Unicode) (n : GoString) (p : Property) (b : GoString)
    (hn : IsIdentifier n) (hb : toStringStatement U n p = .ok b) (pat t : GoString) :
    countOccurrences ('[' :: 'D' :: pat) (b ++ t) = countOccurrences ('[' :: 'D' :: pat) t := by
  have b1 := pascalName_no_bracket U n hn
  simp only [toStringStatement, pascal_ok, bind, Except.bind, pure, Except.pure] at hb
  split_ifs at hb
  · cases hb
    have e : lit ": [\", string.Join(\", \", " = lit ": " ++ ('[' :: lit "\", string.Join(\", \", ") :=
      rfl
    have e2 : lit "\n            output = string.Concat(output, \"" ++ pascalName U n ++
        lit ": [\", string.Join(\", \", " ++ pascalName U n ++ lit "), \"], \");" ++ t =
        (lit "\n            output = string.Concat(output, \"" ++ pascalName U n ++ lit ": ") ++
        ('[' :: '"' :: (lit ", string.Join(\", \", " ++ pascalName U n ++ lit "), \"], \");" ++ t)) := by
      rw [e]
      simp only [List.append_assoc, List.cons_append]
      rfl
    rw [e2, count_skip _ _ _ (by
      simp only [List.mem_append, not_or]
      exact ⟨⟨by decide, b1⟩, by decide⟩)]
    rw [count_bracket_other 'D' pat '"' _ (by decide)]
    have e3 : '"' :: (lit ", string.Join(\", \", " ++ pascalName U n ++ lit "), \"], \");" ++ t) =
        ('"' :: (lit ", string.Join(\", \", " ++ pascalName U n ++ lit "), \"], \");")) ++ t := by
      simp only [List.append_assoc, List.cons_append]
    rw [e3]
    apply count_skip
    simp only [List.mem_cons, List.mem_append, not_or]
    exact ⟨by decide, ⟨by decide, b1⟩, by decide⟩
  · cases hb
    apply count_skip
    simp only [List.mem_append, not_or]
    exact ⟨⟨⟨⟨by decide, b1⟩, by decide⟩, b1⟩, by decide⟩

theorem statements_count (U : Unicode) (pat : GoString) :
    ∀ (l : List (GoString × Property)) (blocks : List GoString),
      (∀ kv ∈ l, IsIdentifier kv.1) →
      List.Forall₂ (fun kv b => toStringStatement U kv.1 kv.2 = .ok b) l blocks →
      ∀ t, countOccurrences ('[' :: 'D' :: pat) (blocks.flatten ++ t) =
        countOccurrences ('[' :: 'D' :: pat) t := by
  intro l blocks hl hf
  induction hf with
  | nil => intro t; rfl
  | cons hb _ ih =>
    intro t
    rw [List.flatten_cons, List.append_assoc,
      toStringStatement_count U _ _ _ (hl _ (by simp)) hb,
      ih (fun kv hkv => hl kv (by simp [hkv]))]

theorem members_count (U : Unicode) (n : GoString) (hn : '"' ∉ n) :
    ∀ (l : List (GoString × Property)) (blocks : List GoString),
      (∀ kv ∈ l, IsIdentifier kv.1 ∧ '[' ∉ kv.2.Ref ∧ '[' ∉ kv.2.Items.Ref) →
      List.Forall₂ (fun kv b => classProperty U kv.1 kv.2 = .ok b) l blocks →
      ∀ t, countOccurrences (lit "[DataMember(Name=\"" ++ n ++ lit "\")]") (blocks.flatten ++ t) =
        @List.count GoString instBEqOfDecidableEq n (l.map Prod.fst) +
          countOccurrences (lit "[DataMember(Name=\"" ++ n ++ lit "\")]") t := by
  intro l blocks hl hf
  induction hf with
  | nil => intro t; simp
  | @cons kv b l2 bs hb _ ih =>
    intro t
    have hkv := hl kv (by simp)
    obtain ⟨pre, post, hform, hfree⟩ := classProperty_form U kv.1 kv.2
    obtain ⟨hpre, hpost⟩ := hfree hkv.1 hkv.2.1 hkv.2.2
    rw [hform] at hb
    cases hb
    have e1 : lit "[DataMember(Name=\"" ++ n ++ lit "\")]" =
        '[' :: (lit "DataMember(Name=\"" ++ n ++ lit "\")]") := rfl
    have e2 : ((pre ++ dataMember kv.1 ++ post) :: bs).flatten ++ t =
        pre ++ (dataMember kv.1 ++ (post ++ (bs.flatten ++ t))) := by
      simp only [List.flatten_cons, List.append_assoc]
    rw [e2]
    conv_lhs => rw [e1, count_skip _ pre _ hpre, ← e1]
    rw [count_dataMember n kv.1 _ hn (identifier_no_quote _ hkv.1) (identifier_no_bracket _ hkv.1)]
    conv_lhs => rw [e1, count_skip _ post _ hpost, ← e1]
    rw [ih (fun x hx => hl x (by simp [hx])) t]
    simp only [List.map_cons, List.count_cons]
    by_cases h : n = kv.1
    · simp [h]; omega
    · have h2 : ¬ (kv.1 = n) := fun e => h e.symm
      simp [h, h2]

/-- Claim C10: the class that `classDecl` writes for a definition holds, for every
property of the definition and whatever its type, the annotation
`[DataMember(Name="<name>")]`, `<name>` being the property name of the schema rune
for rune; and the annotation of every property occurs in the class exactly once
when the property names are identifiers and neither the class name nor a reference
holds a `[` (the template copies all of them into the text as they stand). -/
theorem class_annotates_each_property_once (U : Unicode) (classname : GoString)
    (definition : Definition) :
    ∃ text, classDecl U classname definition = .ok text ∧
      (∀ kv ∈ definition.Properties.entries,
        (lit "[DataMember(Name=\"" ++ kv.1 ++ lit "\")]") <:+: text) ∧
      ('[' ∉ classname →
        (∀ kv ∈ definition.Properties.entries,
          IsIdentifier kv.1 ∧ '[' ∉ kv.2.Ref ∧ '[' ∉ kv.2.Items.Ref) →
        ∀ kv ∈ definition.Properties.entries,
          countOccurrences (lit "[DataMember(Name=\"" ++ kv.1 ++ lit "\")]") text = 1) := by
  obtain ⟨members, statements, hm, hs, hc⟩ := classDecl_shape U classname definition
  refine ⟨_, hc, ?_, ?_⟩
  · intro kv hkv
    obtain ⟨pre, post, hform, _⟩ := classProperty_form U kv.1 kv.2
    have h1 : (lit "[DataMember(Name=\"" ++ kv.1 ++ lit "\")]") <:+:
        pre ++ dataMember kv.1 ++ post :=
      ⟨pre ++ lit "\n        ", post, by
        rw [show dataMember kv.1 = lit "\n        " ++
          (lit "[DataMember(Name=\"" ++ kv.1 ++ lit "\")]") from rfl]
        simp only [List.append_assoc]⟩
    have h2 := rangeMap_within definition.Properties (classProperty U) members hm kv.1 kv.2 hkv
      _ hform
    exact (h1.trans h2).trans ⟨lit "\n\n    /// <inheritdoc />\n    internal class " ++
      classname ++ lit " : I" ++ classname ++ lit "\n    \x7b",
      lit "\n\n        public override string ToString()\n        \x7b\n            var output = \"\";" ++
      statements ++ lit "\n            return output;\n        \x7d\n    \x7d",
      by simp only [List.append_assoc]⟩
  intro hclass hprops kv hkv
  obtain ⟨mblocks, hmb, hmf⟩ := rangeList_forall2
    (fun kv : GoString × Property => classProperty U kv.1 kv.2)
    definition.Properties.sortedEntries (fun x _ => classProperty_ok U x.1 x.2)
  obtain ⟨sblocks, hsb, hsf⟩ := rangeList_forall2
    (fun kv : GoString × Property => toStringStatement U kv.1 kv.2)
    definition.Properties.sortedEntries (fun x _ => toStringStatement_ok U x.1 x.2)
  have em : members = mblocks.flatten := by
    have h3 : rangeMap definition.Properties (classProperty U) = .ok mblocks.flatten := hmb
    rw [hm] at h3; cases h3; rfl
  have es : statements = sblocks.flatten := by
    have h3 : rangeMap definition.Properties (toStringStatement U) = .ok sblocks.flatten := hsb
    rw [hs] at h3; cases h3; rfl
  have hsorted : ∀ x ∈ definition.Properties.sortedEntries,
      IsIdentifier x.1 ∧ '[' ∉ x.2.Ref ∧ '[' ∉ x.2.Items.Ref :=
    fun x hx => hprops x ((mem_sortedEntries _ x).mp hx)
  have hq := identifier_no_quote _ (hprops kv hkv).1
  have e1 : lit "[DataMember(Name=\"" ++ kv.1 ++ lit "\")]" =
      '[' :: 'D' :: (lit "ataMember(Name=\"" ++ kv.1 ++ lit "\")]") := rfl
  have e2 : lit "\n\n    /// <inheritdoc />\n    internal class " ++ classname ++ lit " : I" ++
      classname ++ lit "\n    \x7b" ++ members ++
      lit "\n\n        public override string ToString()\n        \x7b\n            var output = \"\";" ++
      statements ++ lit "\n            return output;\n        \x7d\n    \x7d" =
      (lit "\n\n    /// <inheritdoc />\n    internal class " ++ classname ++ lit " : I" ++
        classname ++ lit "\n    \x7b") ++ (mblocks.flatten ++
      (lit "\n\n        public override string ToString()\n        \x7b\n            var output = \"\";" ++
      (sblocks.flatten ++ lit "\n            return output;\n        \x7d\n    \x7d"))) := by
    rw [em, es]
    simp only [List.append_assoc]
  rw [e2]
  conv_lhs => rw [e1, count_skip _ _ _ (by
    simp only [List.mem_append, not_or]
    exact ⟨⟨⟨⟨by decide, hclass⟩, by decide⟩, hclass⟩, by decide⟩), ← e1]
  rw [members_count U kv.1 hq _ _ hsorted hmf]
  conv_lhs => rw [e1, count_skip _ _ _ (by decide), statements_count U _ _ _
    (fun x hx => (hsorted x hx).1) hsf, count_bracket_free _ _ (by decide)]
  have hperm : (definition.Properties.sortedEntries.map Prod.fst).Perm
      (definition.Properties.entries.map Prod.fst) :=
    (List.perm_insertionSort _ _).map _
  rw [Nat.add_zero]
  exact (hperm.count_eq kv.1).trans (List.count_eq_one_of_mem definition.Properties.nodup
    (List.mem_map_of_mem Prod.fst hkv))

/-- The definition with the properties `create_time` and `labels`: both
annotations are in the class, each exactly once. -/
theorem class_annotates_each_property_once_witness :
    '[' ∉ lit "Session" ∧
    (∀ kv ∈ sessionDefinition.Properties.entries,
      IsIdentifier kv.1 ∧ '[' ∉ kv.2.Ref ∧ '[' ∉ kv.2.Items.Ref) ∧
    ∃ text, classDecl asciiUnicode (lit "Session") sessionDefinition = .ok text ∧
      (lit "[DataMember(Name=\"create_time\")]") <:+: text ∧
      (lit "[DataMember(Name=\"labels\")]") <:+: text ∧
      countOccurrences (lit "[DataMember(Name=\"create_time\")]") text = 1 ∧
      countOccurrences (lit "[DataMember(Name=\"labels\")]") text = 1 := by
  obtain ⟨text, h1, h2, h3⟩ :=
    class_annotates_each_property_once asciiUnicode (lit "Session") sessionDefinition
  have h4 := h3 (by decide) (by decide)
  exact ⟨by decide, by decide, text, h1,
    h2 (lit "create_time", _) (List.mem_cons_of_mem _ (List.mem_singleton.mpr rfl)),
    h2 (lit "labels", _) (List.mem_cons_self _ _),
    h4 (lit "create_time", _) (List.mem_cons_of_mem _ (List.mem_singleton.mpr rfl)),
    h4 (lit "labels", _) (List.mem_cons_self _ _)⟩

/-! ## Operations, order of the declarations and comments -/

theorem bytesLE_refl : ∀ a : List Nat, bytesLE a a = true := by
  intro a
  induction a with
  | nil => rfl
  | cons x xs ih => simp [bytesLE, ih]

theorem bytesLE_total : ∀ a b : List Nat, bytesLE a b = true ∨ bytesLE b a = true := by
  intro a
  induction a with
  | nil => intro b; exact Or.inl rfl
  | cons x xs ih =>
    intro b
    cases b with
    | nil => exact Or.inr rfl
    | cons y ys =>
      simp only [bytesLE, Bool.or_eq_true, Bool.and_eq_true, decide_eq_true_eq, beq_iff_eq]
      rcases Nat.lt_trichotomy x y with h | h | h
      · exact Or.inl (Or.inl h)
      · subst h
        rcases ih ys with h2 | h2
        · exact Or.inl (Or.inr ⟨rfl, h2⟩)
        · exact Or.inr (Or.inr ⟨rfl, h2⟩)
      · exact Or.inr (Or.inl h)

theorem bytesLE_trans : ∀ a b c : List Nat, bytesLE a b = true → bytesLE b c = true →
    bytesLE a c = true := by
  intro a
  induction a with
  | nil => intro b c _ _; rfl
  | cons x xs ih =>
    intro b c hab hbc
    cases b with
    | nil => simp [bytesLE] at hab
    | cons y ys =>
      cases c with
      | nil => simp [bytesLE] at hbc
      | cons z zs =>
        simp only [bytesLE, Bool.or_eq_true, Bool.and_eq_true, decide_eq_true_eq,
          beq_iff_eq] at hab hbc ⊢
        rcases hab with h1 | ⟨h1, h2⟩
        · rcases hbc with h3 | ⟨h3, _⟩
          · exact Or.inl (by omega)
          · exact Or.inl (by omega)
        · rcases hbc with h3 | ⟨h3, h4⟩
          · exact Or.inl (by omega)
          · exact Or.inr ⟨by omega, ih ys zs h2 h4⟩

theorem sortedEntries_sorted {V : Type} (m : GoMap V) :
    List.Pairwise (fun a b : GoString × V => keyLE a.1 b.1 = true) m.sortedEntries :=
  @List.sorted_insertionSort _ (fun a b : GoString × V => keyLE a.1 b.1 = true) _
    ⟨fun _ _ => bytesLE_total _ _⟩ ⟨fun _ _ _ h1 h2 => bytesLE_trans _ _ _ h1 h2⟩ m.entries

theorem sortedEntries_nodup {V : Type} (m : GoMap V) :
    (m.sortedEntries.map Prod.fst).Nodup :=
  ((List.perm_insertionSort _ m.entries).map Prod.fst).nodup_iff.mpr m.nodup

theorem rangeList_eq_flatten {α : Type} (body : α → Except GoPanic GoString)
    (g : α → GoString) :
    ∀ l : List α, (∀ x ∈ l, body x = .ok (g x)) → rangeList body l = .ok (l.map g).flatten := by
  intro l
  induction l with
  | nil => intro _; rfl
  | cons x xs ih =>
    intro h
    simp [rangeList, h x (by simp), ih (fun y hy => h y (by simp [hy])), bind, Except.bind, pure,
      Except.pure]

theorem rangeList_append {α : Type} (body : α → Except GoPanic GoString) :
    ∀ (l1 l2 : List α) (out : GoString), rangeList body (l1 ++ l2) = .ok out →
      ∃ o1 o2, rangeList body l1 = .ok o1 ∧ rangeList body l2 = .ok o2 ∧ out = o1 ++ o2 := by
  intro l1
  induction l1 with
  | nil => intro l2 out h; exact ⟨[], out, rfl, h, rfl⟩
  | cons x xs ih =>
    intro l2 out h
    rw [List.cons_append, rangeList] at h
    cases hx : body x with
    | error e => simp [hx, bind, Except.bind] at h
    | ok a =>
      cases hr : rangeList body (xs ++ l2) with
      | error e => simp [hx, hr, bind, Except.bind] at h
      | ok rest =>
        simp [hx, hr, bind, Except.bind, pure, Except.pure] at h
        obtain ⟨o1, o2, h1, h2, h3⟩ := ih l2 rest hr
        refine ⟨a ++ o1, o2, ?_, h2, ?_⟩
        · simp [rangeList, hx, h1, bind, Except.bind, pure, Except.pure]
        · rw [← h, h3, List.append_assoc]

theorem rangeList_cons {α : Type} (body : α → Except GoPanic GoString) (x : α) (xs : List α)
    (out : GoString) (h : rangeList body (x :: xs) = .ok out) :
    ∃ a rest, body x = .ok a ∧ rangeList body xs = .ok rest ∧ out = a ++ rest := by
  rw [rangeList] at h
  cases hx : body x with
  | error e => simp [hx, bind, Except.bind] at h
  | ok a =>
    cases hr : rangeList body xs with
    | error e => simp [hx, hr, bind, Except.bind] at h
    | ok rest =>
      simp [hx, hr, bind, Except.bind, pure, Except.pure] at h
      exact ⟨a, rest, rfl, rfl, h.symm⟩

theorem pairwise_split {α : Type} (r : α → α → Prop) :
    ∀ (l : List α) (a b : α), List.Pairwise r l → a ∈ l → b ∈ l → r b b → ¬ r b a →
      ∃ l1 l2 l3, l = l1 ++ a :: (l2 ++ b :: l3) := by
  intro l
  induction l with
  | nil => intro a b _ ha; simp at ha
  | cons x xs ih =>
    intro a b hp ha hb hbb hba
    rw [List.pairwise_cons] at hp
    rcases List.mem_cons.mp hb with eb | hb2
    · subst eb
      rcases List.mem_cons.mp ha with ea | ha2
      · subst ea; exact absurd hbb hba
      · exact absurd (hp.1 a ha2) hba
    · rcases List.mem_cons.mp ha with ea | ha2
      · subst ea
        obtain ⟨l2, l3, e⟩ := List.append_of_mem hb2
        exact ⟨[], l2, l3, by rw [e]; rfl⟩
      · obtain ⟨l1, l2, l3, e⟩ := ih a b hp.2 ha2 hb2 hbb hba
        exact ⟨x :: l1, l2, l3, by rw [e]; rfl⟩

theorem rangeMap_ordered {V : Type} (m : GoMap V)
    (body : GoString → V → Except GoPanic GoString) (out : GoString)
    (h : rangeMap m body = .ok out) (ka kb : GoString) (va vb : V)
    (ha : (ka, va) ∈ m.entries) (hb : (kb, vb) ∈ m.entries) (hlt : keyLE kb ka = false) :
    ∃ ta tb pre mid post, body ka va = .ok ta ∧ body kb vb = .ok tb ∧
      out = pre ++ ta ++ mid ++ tb ++ post := by
  obtain ⟨l1, l2, l3, e⟩ := pairwise_split (fun a b : GoString × V => keyLE a.1 b.1 = true)
    m.sortedEntries (ka, va) (kb, vb) (sortedEntries_sorted m)
    ((mem_sortedEntries m _).mpr ha) ((mem_sortedEntries m _).mpr hb) (bytesLE_refl _)
    (by simp [hlt])
  unfold rangeMap at h
  rw [e] at h
  obtain ⟨o1, o2, _, h2, h3⟩ := rangeList_append _ _ _ _ h
  obtain ⟨ta, r2, h4, h5, h6⟩ := rangeList_cons _ _ _ _ h2
  obtain ⟨o3, o4, _, h8, h9⟩ := rangeList_append _ _ _ _ h5
  obtain ⟨tb, r4, h10, _, h12⟩ := rangeList_cons _ _ _ _ h8
  refine ⟨ta, tb, o1, o3, r4, h4, h10, ?_⟩
  rw [h3, h6, h9, h12]
  simp only [List.append_assoc]

theorem credential_groups_flatten {V : Type} (tb th : GoString) :
    ∀ l : List (GoString × V),
      List.Pairwise (fun a b : GoString × V => keyLE a.1 b.1 = true) l →
      (l.map Prod.fst).Nodup →
      (l.map (fun kv => if kv.1 = lit "BasicAuth" then tb
        else if kv.1 = lit "HttpKeyAuth" then th else [])).flatten =
      (if lit "BasicAuth" ∈ l.map Prod.fst then tb else []) ++
        (if lit "HttpKeyAuth" ∈ l.map Prod.fst then th else []) := by
  intro l
  induction l with
  | nil => intro _ _; rfl
  | cons x xs ih =>
    intro hp hn
    rw [List.pairwise_cons] at hp
    rw [List.map_cons, List.nodup_cons] at hn
    have ih2 := ih hp.2 hn.2
    simp only [List.map_cons, List.flatten_cons, ih2, List.mem_cons]
    by_cases h1 : x.1 = lit "BasicAuth"
    · have hb : lit "BasicAuth" ∉ xs.map Prod.fst := by rw [← h1]; exact hn.1
      have hne : ¬ (lit "HttpKeyAuth" = x.1) := by rw [h1]; decide
      have e1 : lit "BasicAuth" = x.1 := h1.symm
      split_ifs <;>
        first | rfl | (exfalso; tauto)
    · have e1 : ¬ (lit "BasicAuth" = x.1) := fun e => h1 e.symm
      by_cases h2 : x.1 = lit "HttpKeyAuth"
      · have hh : lit "HttpKeyAuth" ∉ xs.map Prod.fst := by rw [← h2]; exact hn.1
        have hb : lit "BasicAuth" ∉ xs.map Prod.fst := by
          intro hm
          obtain ⟨e, he, hek⟩ := List.mem_map.mp hm
          have h3 := hp.1 e he
          rw [h2, hek] at h3
          revert h3
          decide
        have e2 : lit "HttpKeyAuth" = x.1 := h2.symm
        split_ifs <;>
          first | rfl | (exfalso; tauto) | simp only [List.nil_append, List.append_nil]
      · have e2 : ¬ (lit "HttpKeyAuth" = x.1) := fun e => h2 e.symm
        split_ifs <;>
          first | rfl | (exfalso; tauto)

theorem credentialParameters_first (op : Operation) (first : GoMap (List Unit))
    (others : List (GoMap (List Unit))) (h : op.Security = first :: others) :
    credentialParameters op = .ok
      ((if lit "BasicAuth" ∈ first.entries.map Prod.fst then
          lit "\n            string username\n            , string password" else []) ++
        (if lit "HttpKeyAuth" ∈ first.entries.map Prod.fst then
          lit "\n            string bearerToken" else [])) := by
  have hperm : ∀ k : GoString, k ∈ first.sortedEntries.map Prod.fst ↔
      k ∈ first.entries.map Prod.fst := fun k =>
    ((List.perm_insertionSort _ first.entries).map Prod.fst).mem_iff
  unfold credentialParameters
  rw [h]
  simp only [rangeMap]
  rw [rangeList_eq_flatten _ (fun kv : GoString × List Unit =>
    if kv.1 = lit "BasicAuth" then lit "\n            string username\n            , string password"
    else if kv.1 = lit "HttpKeyAuth" then lit "\n            string bearerToken" else [])]
  · rw [credential_groups_flatten _ _ _ (sortedEntries_sorted first) (sortedEntries_nodup first)]
    simp only [hperm]
  · intro x _
    simp only [pure, Except.pure]
    split_ifs <;> rfl

/-- Claim C11, amended: the parameter list of every method starts, right after
the opening parenthesis, with the credential parameters, and these follow the
scheme names of the first security alternative. With no security alternative
at all they are `string bearerToken`. Otherwise they are `string username` and
`, string password` if and only if the first alternative names `BasicAuth`,
followed by `string bearerToken` if and only if it names `HttpKeyAuth`: one
group when it names exactly one of the two schemes, none when it names neither,
both when it names both. -/
theorem credential_parameters_of_first_alternative (U : Unicode) (url method : GoString)
    (op : Operation) :
    ∃ methodname credentials rest,
      snakeCaseToPascalCase U op.OperationId = .ok methodname ∧
      credentialParameters op = .ok credentials ∧
      operationMethod U url method op =
        .ok (methodSignature U op methodname ++ credentials ++ rest) ∧
      (op.Security = [] → credentials = lit "\n            string bearerToken") ∧
      (∀ first others, op.Security = first :: others →
        credentials =
          (if lit "BasicAuth" ∈ first.entries.map Prod.fst then
            lit "\n            string username\n            , string password" else []) ++
          (if lit "HttpKeyAuth" ∈ first.entries.map Prod.fst then
            lit "\n            string bearerToken" else [])) := by
  obtain ⟨c, p, k, sb, qs, hd, b, hc, _, _, _, _, _, _, hop⟩ := operationMethod_shape U url method op
  refine ⟨pascalName U op.OperationId, c, p ++ methodBodyOpen ++ k ++ urlpathDeclaration url ++
    sb ++ qs ++ requestDeclaration U method ++ hd ++ b ++ dispatchStatements U op,
    pascal_ok U _, hc, ?_, ?_, ?_⟩
  · rw [hop]; simp only [List.append_assoc]
  · intro h
    unfold credentialParameters at hc
    rw [h] at hc
    cases hc
    rfl
  · intro first others h
    rw [credentialParameters_first op first others h] at hc
    cases hc
    rfl

/-- Claim C12: only the first security alternative counts. Two operations that
are equal except for the alternatives after the first get the same method text,
the same credential parameters and the same authorization-header statements. -/
theorem only_first_security_alternative_counts (U : Unicode) (url method : GoString)
    (op : Operation) (first : GoMap (List Unit)) (others1 others2 : List (GoMap (List Unit))) :
    operationMethod U url method { op with Security := first :: others1 } =
      operationMethod U url method { op with Security := first :: others2 } ∧
    credentialParameters { op with Security := first :: others1 } =
      credentialParameters { op with Security := first :: others2 } ∧
    authorizationHeader { op with Security := first :: others1 } =
      authorizationHeader { op with Security := first :: others2 } :=
  ⟨rfl, rfl, rfl⟩

/-- Claim C13, amended: the declarations are written in the order of the keys,
compared byte by byte as Go compares strings, whatever the order of the
document. For every schema and every two definitions of it, the interface and
class of the one whose name is smaller stand before those of the other in the
output; and within the interface and within the class of a definition, the
block of the property whose name is smaller stands before that of the other. -/
theorem declarations_in_key_order (U : Unicode) (s : Schema) :
    ∃ out, codeTemplate U s = .ok out ∧
      (∀ na da nb db, (na, da) ∈ s.Definitions.entries → (nb, db) ∈ s.Definitions.entries →
        keyLE nb na = false →
        ∃ ta tb pre mid post, definitionDecl U na da = .ok ta ∧ definitionDecl U nb db = .ok tb ∧
          out = pre ++ ta ++ mid ++ tb ++ post) ∧
      (∀ defname d pa a pb b, (defname, d) ∈ s.Definitions.entries →
        (pa, a) ∈ d.Properties.entries → (pb, b) ∈ d.Properties.entries → keyLE pb pa = false →
        (∃ ia ib pre mid post, interfaceProperty U pa a = .ok ia ∧
          interfaceProperty U pb b = .ok ib ∧
          interfaceDecl U (stringsTitle U defname) d = .ok (pre ++ ia ++ mid ++ ib ++ post)) ∧
        (∃ ca cb pre mid post, classProperty U pa a = .ok ca ∧ classProperty U pb b = .ok cb ∧
          classDecl U (stringsTitle U defname) d = .ok (pre ++ ca ++ mid ++ cb ++ post))) := by
  obtain ⟨defs, methods, h1, _, h3⟩ := codeTemplate_shape U s
  refine ⟨_, h3, ?_, ?_⟩
  · intro na da nb db ha hb hlt
    obtain ⟨ta, tb, pre, mid, post, e1, e2, e3⟩ :=
      rangeMap_ordered s.Definitions (definitionDecl U) defs h1 na nb da db ha hb hlt
    refine ⟨ta, tb, fileHeader ++ pre, mid, post ++ clientHeader ++ methods ++ fileFooter, e1, e2, ?_⟩
    rw [e3]
    simp only [List.append_assoc]
  · intro defname d pa a pb b _ ha hb hlt
    constructor
    · obtain ⟨acc, h4, h5⟩ := interfaceDecl_shape U (stringsTitle U defname) d
      obtain ⟨ta, tb, pre, mid, post, e1, e2, e3⟩ :=
        rangeMap_ordered d.Properties (interfaceProperty U) acc h4 pa pb a b ha hb hlt
      refine ⟨ta, tb, lit "\n\n    /// <summary>\n    /// " ++ stripNewlines d.Description ++
        lit "\n    /// </summary>\n    public interface I" ++ stringsTitle U defname ++
        lit "\n    \x7b" ++ pre, mid, post ++ lit "\n    \x7d", e1, e2, ?_⟩
      rw [h5, e3]
      simp only [List.append_assoc]
    · obtain ⟨mem, st, h4, _, h5⟩ := classDecl_shape U (stringsTitle U defname) d
      obtain ⟨ta, tb, pre, mid, post, e1, e2, e3⟩ :=
        rangeMap_ordered d.Properties (classProperty U) mem h4 pa pb a b ha hb hlt
      refine ⟨ta, tb, lit "\n\n    /// <inheritdoc />\n    internal class " ++
        stringsTitle U defname ++ lit " : I" ++ stringsTitle U defname ++ lit "\n    \x7b" ++ pre,
        mid, post ++
        lit "\n\n        public override string ToString()\n        \x7b\n            var output = \"\";" ++
        st ++ lit "\n            return output;\n        \x7d\n    \x7d", e1, e2, ?_⟩
      rw [h5, e3]
      simp only [List.append_assoc]

/-- Claim C11 fails as stated: for the operation `healthcheck` whose first
security alternative names no scheme the method is `HealthcheckAsync()`, with no
credential parameter and no authorization header; and when the first
alternative names both `BasicAuth` and `HttpKeyAuth` the parameter list holds
both groups, `string username`, `, string password` and `string bearerToken`,
and the body sets both headers. -/
theorem first_alternative_without_or_with_both_schemes :
    operationMethod asciiUnicode (lit "/healthcheck") (lit "get")
        (healthcheckOperation [noScheme]) =
      .ok (healthcheckHead ++ methodBodyOpen ++ urlpathDeclaration (lit "/healthcheck") ++
        requestDeclaration asciiUnicode (lit "get") ++
        dispatchStatements asciiUnicode (healthcheckOperation [noScheme])) ∧
    operationMethod asciiUnicode (lit "/healthcheck") (lit "get")
        (healthcheckOperation [bothSchemes]) =
      .ok (healthcheckHead ++
        lit "\n            string username\n            , string password" ++
        lit "\n            string bearerToken" ++
        methodBodyOpen ++ urlpathDeclaration (lit "/healthcheck") ++
        requestDeclaration asciiUnicode (lit "get") ++
        basicHeaderStatements ++ bearerHeaderStatements ++
        dispatchStatements asciiUnicode (healthcheckOperation [bothSchemes])) := by
  constructor <;> decide!

/-- Claim C13 fails as stated: the document `reversedDocument` declares the
definition `b` before `a`, and in `a` the property `y` before `x`, yet the
output holds the declarations of `a` before those of `b`, and in `a` the
property `X` before `Y`. -/
theorem reversed_document_in_key_order :
    reversedDocument.map Prod.fst = [lit "b", lit "a"] ∧
    codeTemplate asciiUnicode reversedSchema =
      .ok (fileHeader ++ reversedDeclarations ++ clientHeader ++ fileFooter) := by
  refine ⟨by decide, ?_⟩
  decide!

theorem pascal_healthcheck (U : Unicode) :
    snakeCaseToPascalCase U (lit "healthcheck") = .ok (lit "Healthcheck") := by
  rw [pascal_ok]
  have h : U.toUpper 'h' = 'H' := by rw [U.toUpper_ascii _ (by decide)]; decide
  simp [pascalName, scanTail, firstByte, h]

/-- Claim C14: the method of every operation is named
`snakeCaseToPascalCase(operationId)` followed by `Async`: the text of the method
is the summary comment, then `public async Task<I...> `, then that name and the
opening parenthesis. The operationId `healthcheck` gives `Healthcheck`, hence the
method `HealthcheckAsync`. -/
theorem method_named_pascal_async (U : Unicode) (url method : GoString) (op : Operation) :
    (∃ methodname rest, snakeCaseToPascalCase U op.OperationId = .ok methodname ∧
      operationMethod U url method op =
        .ok (lit "\n\n        /// <summary>\n        /// " ++ stripNewlines op.Summary ++
          lit "\n        /// </summary>\n        public async Task<I" ++
          convertRefToClassName U op.ResponsesOkSchemaRef ++ lit "> " ++ methodname ++
          lit "Async(" ++ rest)) ∧
    snakeCaseToPascalCase U (lit "healthcheck") = .ok (lit "Healthcheck") := by
  refine ⟨?_, pascal_healthcheck U⟩
  obtain ⟨c, p, k, sb, qs, hd, b, _, _, _, _, _, _, _, hop⟩ := operationMethod_shape U url method op
  refine ⟨pascalName U op.OperationId, c ++ p ++ methodBodyOpen ++ k ++ urlpathDeclaration url ++
    sb ++ qs ++ requestDeclaration U method ++ hd ++ b ++ dispatchStatements U op,
    pascal_ok U _, ?_⟩
  rw [hop]
  unfold methodSignature
  simp only [List.append_assoc]

theorem requiredCheck_form (U : Unicode) (q : Parameter) (blk : GoString)
    (h : requiredCheck U q = .ok blk) :
    ∃ camelcase, snakeCaseToCamelCase U q.Name = .ok camelcase ∧
      blk = if q.Required = true then
        lit "\n            if (" ++ camelcase ++
          lit " == null)\n            \x7b\n                throw new ArgumentException(\"'" ++
          camelcase ++ lit "' is required but was null.\");\n            \x7d"
      else [] := by
  refine ⟨camelName U q.Name, camel_ok U _, ?_⟩
  simp only [requiredCheck, camel_ok, bind, Except.bind, pure, Except.pure, Except.ok.injEq] at h
  exact h.symm

/-- Claim C15: the body of every method starts with one block per parameter, in
the order of the parameters: the null check on `snakeCaseToCamelCase(name)` that
throws an `ArgumentException` if the parameter is required, and nothing if it is
not. These blocks stand before the declaration of `urlpath`, the request
envelope and the dispatch statements. -/
theorem required_checks_precede_request (U : Unicode) (url method : GoString) (op : Operation) :
    ∃ (methodname credentials parameters : GoString) (checks : List GoString)
      (substitutions queries header content : GoString),
      snakeCaseToPascalCase U op.OperationId = .ok methodname ∧
      operationMethod U url method op = .ok
        (methodSignature U op methodname ++ credentials ++ parameters ++ methodBodyOpen ++
          checks.flatten ++ urlpathDeclaration url ++ substitutions ++ queries ++
          requestDeclaration U method ++ header ++ content ++ dispatchStatements U op) ∧
      List.Forall₂ (fun q blk =>
        ∃ camelcase, snakeCaseToCamelCase U q.Name = .ok camelcase ∧
          blk = if q.Required = true then
            lit "\n            if (" ++ camelcase ++
              lit " == null)\n            \x7b\n                throw new ArgumentException(\"'" ++
              camelcase ++ lit "' is required but was null.\");\n            \x7d"
          else []) op.Parameters checks := by
  obtain ⟨c, p, k, sb, qs, hd, b, _, _, hk, _, _, _, _, hop⟩ := operationMethod_shape U url method op
  obtain ⟨blocks, hb, hf⟩ := rangeList_forall2 (requiredCheck U) op.Parameters
    (fun x _ => requiredCheck_ok U x)
  rw [hk] at hb
  cases hb
  exact ⟨pascalName U op.OperationId, c, p, blocks, sb, qs, hd, b, pascal_ok U _, hop,
    hf.imp (fun q blk h => requiredCheck_form U q blk h)⟩

theorem camel_ids (U : Unicode) : snakeCaseToCamelCase U (lit "ids") = .ok (lit "ids") := by
  rw [camel_ok]
  have h : U.toLower 'i' = 'i' := by rw [U.toLower_ascii _ (by decide)]; decide
  simp [camelName, scanTail, firstByte, h]

theorem camel_id (U : Unicode) : snakeCaseToCamelCase U (lit "id") = .ok (lit "id") := by
  rw [camel_ok]
  have h : U.toLower 'i' = 'i' := by rw [U.toLower_ascii _ (by decide)]; decide
  simp [camelName, scanTail, firstByte, h]

theorem pascal_create_time (U : Unicode) :
    snakeCaseToPascalCase U (lit "create_time") = .ok (lit "CreateTime") := by
  rw [pascal_ok]
  have h1 : U.toUpper 'c' = 'C' := by rw [U.toUpper_ascii _ (by decide)]; decide
  have h2 : U.toUpper 't' = 'T' := by rw [U.toUpper_ascii _ (by decide)]; decide
  simp [pascalName, scanTail, firstByte, h1, h2]

/-- Claim C16, on the code: the statement for a query parameter of type `string`
passes the value through `Uri.EscapeDataString`, while the statement for a query
parameter of type `array` appends every element under the same key as it
stands, as `elem`, without `Uri.EscapeDataString`: for the parameter `ids` the
loop body is `urlpath = string.Concat(urlpath, "ids=", elem, "&");`. -/
theorem array_query_elements_unescaped (U : Unicode) (q : Parameter) :
    ∃ camelcase, snakeCaseToCamelCase U q.Name = .ok camelcase ∧
      (q.In = lit "query" → q.Type_ = lit "string" →
        queryAppend U q = .ok (lit "\n            urlpath = string.Concat(urlpath, \"" ++ q.Name ++
          lit "=\", Uri.EscapeDataString(" ++ camelcase ++ lit "), \"&\");")) ∧
      (q.In = lit "query" → q.Type_ = lit "array" →
        queryAppend U q = .ok (lit "\n            foreach (var elem in " ++ camelcase ++
          lit ")\n            \x7b\n                urlpath = string.Concat(urlpath, \"" ++
          q.Name ++ lit "=\", elem, \"&\");\n            \x7d")) ∧
      queryAppend U idsParameter = .ok (lit ("\n            foreach (var elem in ids)" ++
        "\n            \x7b\n                urlpath = string.Concat(urlpath, \"ids=\", elem, \"&\");" ++
        "\n            \x7d")) := by
  refine ⟨camelName U q.Name, camel_ok U _, ?_, ?_, ?_⟩
  · intro h0 h1
    have e1 : q.Type_ ≠ lit "integer" := by rw [h1]; decide
    simp only [queryAppend, camel_ok, bind, Except.bind, pure, Except.pure, e1, if_false]
    simp only [h0, h1, if_true]
  · intro h0 h1
    have e1 : q.Type_ ≠ lit "integer" := by rw [h1]; decide
    have e2 : q.Type_ ≠ lit "string" := by rw [h1]; decide
    have e3 : q.Type_ ≠ lit "boolean" := by rw [h1]; decide
    simp only [queryAppend, camel_ok, bind, Except.bind, pure, Except.pure, e1, e2, e3, if_false]
    simp only [h0, h1, if_true]
  · have h := camel_ids U
    simp only [queryAppend, bind, Except.bind, pure, Except.pure, idsParameter, h]
    decide

theorem stripNewlines_map (s : GoString) :
    stripNewlines s = s.map (fun c => if c = '\n' then ' ' else c) := by
  unfold stripNewlines
  induction s with
  | nil => rfl
  | cons c cs ih =>
    simp only [stringsReplaceAll, List.map_cons, ih]
    split_ifs <;> rfl

theorem stripNewlines_no_newline (s : GoString) : '\n' ∉ stripNewlines s := by
  rw [stripNewlines_map]
  intro h
  obtain ⟨c, _, hc⟩ := List.mem_map.mp h
  split_ifs at hc with h1
  · revert hc; decide
  · exact h1 hc

/-- Claim C17, on the code: `stripNewlines` replaces every newline by one space
and its result holds no newline; the summary of an interface holds
`stripNewlines` of the description of the definition and the summary of a method
holds `stripNewlines` of the summary of the operation, but the summary of a
property holds the description of the property as it stands: the description
`The creation\ntime.` is written with its newline. -/
theorem property_description_keeps_newlines (U : Unicode) :
    (∀ s, stripNewlines s = s.map (fun c => if c = '\n' then ' ' else c) ∧
      '\n' ∉ stripNewlines s) ∧
    (∀ classname d, ∃ accessors, interfaceDecl U classname d = .ok
      (lit "\n\n    /// <summary>\n    /// " ++ stripNewlines d.Description ++
        lit "\n    /// </summary>\n    public interface I" ++ classname ++ lit "\n    \x7b" ++
        accessors ++ lit "\n    \x7d")) ∧
    (∀ url method op, ∃ rest, operationMethod U url method op = .ok
      (lit "\n\n        /// <summary>\n        /// " ++ stripNewlines op.Summary ++
        lit "\n        /// </summary>" ++ rest)) ∧
    (∀ n p, ∃ rest, interfaceProperty U n p = .ok
      (lit "\n\n        /// <summary>\n        /// " ++ p.Description ++
        lit "\n        /// </summary>" ++ rest)) ∧
    interfaceProperty U (lit "create_time") twoLineProperty = .ok
      (lit ("\n\n        /// <summary>\n        /// The creation\ntime.\n        /// </summary>" ++
        "\n        int CreateTime \x7b get; \x7d")) := by
  refine ⟨fun s => ⟨stripNewlines_map s, stripNewlines_no_newline s⟩, ?_, ?_, ?_, ?_⟩
  · intro classname d
    obtain ⟨a, _, h⟩ := interfaceDecl_shape U classname d
    exact ⟨a, h⟩
  · intro url method op
    obtain ⟨c, p, k, sb, qs, hd, b, _, _, _, _, _, _, _, hop⟩ :=
      operationMethod_shape U url method op
    refine ⟨lit "\n        public async Task<I" ++
      convertRefToClassName U op.ResponsesOkSchemaRef ++ lit "> " ++ pascalName U op.OperationId ++
      lit "Async(" ++ c ++ p ++ methodBodyOpen ++ k ++ urlpathDeclaration url ++
      sb ++ qs ++ requestDeclaration U method ++ hd ++ b ++ dispatchStatements U op, ?_⟩
    rw [hop]
    unfold methodSignature
    rw [show lit "\n        /// </summary>\n        public async Task<I" =
      lit "\n        /// </summary>" ++ lit "\n        public async Task<I" from by decide]
    simp only [List.append_assoc]
  · intro n p
    simp only [interfaceProperty, pascal_ok, bind, Except.bind, pure, Except.pure]
    exact ⟨_, rfl⟩
  · have h := pascal_create_time U
    simp only [interfaceProperty, bind, Except.bind, pure, Except.pure, twoLineProperty, h, if_true]
    rfl

/-- Claim C18, on the code: a query parameter of type `integer` is declared as
`int` and one of type `boolean` as `bool`, but a path parameter is declared with
the type name of the schema as it stands, whatever it is: the required path
parameter `id` of type `integer` is declared as `, integer id`. -/
theorem path_parameter_keeps_schema_type (U : Unicode) (q : Parameter) :
    ∃ camelcase, snakeCaseToCamelCase U q.Name = .ok camelcase ∧
      (q.In = lit "query" → q.Type_ = lit "integer" →
        methodParameter U q = .ok (lit "\n            , int " ++ camelcase)) ∧
      (q.In = lit "query" → q.Type_ = lit "boolean" →
        methodParameter U q = .ok (lit "\n            , bool " ++ camelcase)) ∧
      (q.In = lit "path" →
        methodParameter U q = .ok (lit "\n            , " ++ q.Type_ ++
          (if q.Required = true then [] else lit "?") ++ lit " " ++ camelcase)) ∧
      methodParameter U idParameter = .ok (lit "\n            , integer id") := by
  refine ⟨camelName U q.Name, camel_ok U _, ?_, ?_, ?_, ?_⟩
  · intro h0 h1
    have e1 : q.In ≠ lit "path" := by rw [h0]; decide
    have e2 : q.In ≠ lit "body" := by rw [h0]; decide
    have e3 : q.Type_ ≠ lit "array" := by rw [h1]; decide
    simp only [methodParameter, camel_ok, bind, Except.bind, pure, Except.pure, e1, e2, e3,
      if_false]
    simp only [h1, if_true]
  · intro h0 h1
    have e1 : q.In ≠ lit "path" := by rw [h0]; decide
    have e2 : q.In ≠ lit "body" := by rw [h0]; decide
    have e3 : q.Type_ ≠ lit "array" := by rw [h1]; decide
    have e4 : q.Type_ ≠ lit "integer" := by rw [h1]; decide
    simp only [methodParameter, camel_ok, bind, Except.bind, pure, Except.pure, e1, e2, e3, e4,
      if_false]
    simp only [h1, if_true]
  · intro h0
    simp only [methodParameter, camel_ok, bind, Except.bind, pure, Except.pure]
    rw [if_pos h0]
    cases q.Required <;> rfl
  · have h := camel_id U
    simp only [methodParameter, bind, Except.bind, pure, Except.pure, idParameter, h, if_true]
    rfl

theorem member_matches_accessor (U : Unicode) (n : GoString) (p : Property) :
    ∃ T marking rest,
      interfaceProperty U n p = .ok (lit "\n\n        /// <summary>\n        /// " ++
        p.Description ++ lit "\n        /// </summary>" ++ lit "\n        " ++ T ++ lit " " ++
        pascalName U n ++ lit " \x7b get; \x7d") ∧
      classProperty U n p = .ok (lit "\n\n        /// <inheritdoc />" ++ marking ++
        lit "\n        public " ++ T ++ lit " " ++ pascalName U n ++ rest) ∧
      ((marking = dataMember n ∧ rest = lit " \x7b get; set; \x7d") ∨
        (marking = [] ∧ lit " => _" <+: rest)) := by
  simp only [interfaceProperty, classProperty, pascal_ok, camel_ok, bind, Except.bind, pure,
    Except.pure]
  split_ifs
  · exact ⟨lit "int", dataMember n, lit " \x7b get; set; \x7d",
      by simp only [List.append_assoc]; rfl, by simp only [List.append_assoc]; rfl,
      Or.inl ⟨rfl, rfl⟩⟩
  · exact ⟨lit "bool", dataMember n, lit " \x7b get; set; \x7d",
      by simp only [List.append_assoc]; rfl, by simp only [List.append_assoc]; rfl,
      Or.inl ⟨rfl, rfl⟩⟩
  · exact ⟨lit "string", dataMember n, lit " \x7b get; set; \x7d",
      by simp only [List.append_assoc]; rfl, by simp only [List.append_assoc]; rfl,
      Or.inl ⟨rfl, rfl⟩⟩
  · exact ⟨lit "List<string>", dataMember n, lit " \x7b get; set; \x7d",
      by simp only [List.append_assoc]; rfl, by simp only [List.append_assoc]; rfl,
      Or.inl ⟨rfl, rfl⟩⟩
  · exact ⟨lit "List<int>", dataMember n, lit " \x7b get; set; \x7d",
      by simp only [List.append_assoc]; rfl, by simp only [List.append_assoc]; rfl,
      Or.inl ⟨rfl, rfl⟩⟩
  · exact ⟨lit "List<bool>", dataMember n, lit " \x7b get; set; \x7d",
      by simp only [List.append_assoc]; rfl, by simp only [List.append_assoc]; rfl,
      Or.inl ⟨rfl, rfl⟩⟩
  · exact ⟨lit "IEnumerable<I" ++ convertRefToClassName U p.Items.Ref ++ lit ">", [],
      lit " => _" ++ camelName U n ++ lit " ?? new List<" ++
        convertRefToClassName U p.Items.Ref ++ lit ">(0);" ++ dataMember n ++
        lit "\n        public List<" ++ convertRefToClassName U p.Items.Ref ++ lit "> _" ++
        camelName U n ++ lit " \x7b get; set; \x7d",
      by simp only [List.append_assoc]; rfl, by simp only [List.append_assoc]; rfl,
      Or.inr ⟨rfl, ⟨_, by simp only [List.append_assoc]; rfl⟩⟩⟩
  · exact ⟨lit "I" ++ convertRefToClassName U p.Ref, [],
      lit " => _" ++ camelName U n ++ lit ";" ++ dataMember n ++
        lit "\n        public " ++ convertRefToClassName U p.Ref ++ lit " _" ++
        camelName U n ++ lit " \x7b get; set; \x7d",
      by simp only [List.append_assoc]; rfl, by simp only [List.append_assoc]; rfl,
      Or.inr ⟨rfl, ⟨_, by simp only [List.append_assoc]; rfl⟩⟩⟩

/-- Claim C19: for every definition and every property of it, whatever its
type, the interface holds the accessor `T Field { get; }` and the class
holds the public member `public T Field`, with the same type text `T` and the
same identifier `Field`, the value of `snakeCaseToPascalCase` on the property
name. The member either carries the `DataMember` annotation and ends in
`{ get; set; }`, or is the expression-bodied `public T Field => _...` of
a reference. -/
theorem class_member_matches_interface_accessor (U : Unicode) (classname : GoString)
    (definition : Definition) :
    ∃ itext ctext, interfaceDecl U classname definition = .ok itext ∧
      classDecl U classname definition = .ok ctext ∧
      ∀ propname property, (propname, property) ∈ definition.Properties.entries →
        ∃ fieldname T marking rest,
          snakeCaseToPascalCase U propname = .ok fieldname ∧
          (lit "\n\n        /// <summary>\n        /// " ++ property.Description ++
            lit "\n        /// </summary>" ++ lit "\n        " ++ T ++ lit " " ++ fieldname ++
            lit " \x7b get; \x7d") <:+: itext ∧
          (lit "\n\n        /// <inheritdoc />" ++ marking ++ lit "\n        public " ++ T ++
            lit " " ++ fieldname ++ rest) <:+: ctext ∧
          interfaceProperty U propname property = .ok
            (lit "\n\n        /// <summary>\n        /// " ++ property.Description ++
              lit "\n        /// </summary>" ++ lit "\n        " ++ T ++ lit " " ++ fieldname ++
              lit " \x7b get; \x7d") ∧
          classProperty U propname property = .ok
            (lit "\n\n        /// <inheritdoc />" ++ marking ++ lit "\n        public " ++ T ++
              lit " " ++ fieldname ++ rest) ∧
          ((marking = dataMember propname ∧ rest = lit " \x7b get; set; \x7d") ∨
            (marking = [] ∧ lit " => _" <+: rest)) := by
  obtain ⟨accessors, ha, hi⟩ := interfaceDecl_shape U classname definition
  obtain ⟨members, statements, hm, _, hc⟩ := classDecl_shape U classname definition
  refine ⟨_, _, hi, hc, ?_⟩
  intro propname property hmem
  obtain ⟨T, marking, rest, h1, h2, h3⟩ := member_matches_accessor U propname property
  refine ⟨pascalName U propname, T, marking, rest, pascal_ok U _, ?_, ?_, h1, h2, h3⟩
  · exact (rangeMap_within definition.Properties (interfaceProperty U) accessors ha propname
      property hmem _ h1).trans
      ⟨lit "\n\n    /// <summary>\n    /// " ++ stripNewlines definition.Description ++
        lit "\n    /// </summary>\n    public interface I" ++ classname ++ lit "\n    \x7b",
        lit "\n    \x7d", by simp only [List.append_assoc]⟩
  · exact (rangeMap_within definition.Properties (classProperty U) members hm propname
      property hmem _ h2).trans
      ⟨lit "\n\n    /// <inheritdoc />\n    internal class " ++ classname ++ lit " : I" ++
        classname ++ lit "\n    \x7b",
        lit "\n\n        public override string ToString()\n        \x7b\n            var output = \"\";" ++
        statements ++ lit "\n            return output;\n        \x7d\n    \x7d",
        by simp only [List.append_assoc]⟩

end OpenapiGen
